import Mathlib

/-!
Shallow embedding of the sports-betting repository's Bayesian model-combination
core (src/combine_forecasts.py) and its training-set preprocessing
(src/estimate_weights.py).  Python floats are modelled as exact rationals; a
computation that would be NaN-poisoned in numpy (division by a zero
denominator, an empty posterior ensemble) is modelled by an Option-valued
result.  List indices mirror the numpy array indices.
-/

/-- State of `ModelCombination` after `__init__` (combine_forecasts.py lines
12-32): the sorted distinct timepoints (`np.sort(... .unique())`), the model
(forecaster) names taken from the weight dataframe's columns, and one posterior
ensemble (a list of weight-vector draws) per timepoint. -/
structure ModelCombination where
  timepoints : List ℚ
  models : List String
  posterior_dist : List (List (List ℚ))

/-- `ModelCombination.__init__` builds a scipy `interp1d(kind='linear')` over
the timepoints (line 22); scipy raises `ValueError: x and y arrays must have at
least 2 entries` for a linear interpolant on fewer than two points, so
construction fails when there are fewer than two distinct timepoints. -/
def ModelCombination.init? (timepoints : List ℚ) (models : List String)
    (posterior_dist : List (List (List ℚ))) : Option ModelCombination :=
  if timepoints.length < 2 then none else some ⟨timepoints, models, posterior_dist⟩

/-- The piecewise-linear interpolation of line 22: the timepoints are mapped to
indices 0,1,...,K-1 and a query t is mapped to its fractional position on that
grid, extrapolating with the first/last segment outside the anchor range
(`fill_value='extrapolate'`).  On fewer than two points the interpolant does
not exist (see `ModelCombination.init?`); those cases return the junk value 0. -/
def fracIndex : List ℚ → ℚ → ℚ
  | [], _ => 0
  | [_], _ => 0
  | [t1, t2], t => (t - t1) / (t2 - t1)
  | t1 :: t2 :: t3 :: rest, t =>
    if t ≤ t2 then (t - t1) / (t2 - t1) else 1 + fracIndex (t2 :: t3 :: rest) t

/-- `get_timepoint_weights` (lines 34-62): clamp the interpolated index into
[y.min(), y.max()] = [0, K-1] (line 23), take floor/ceil indices (lines 49-50)
and compute the linear time weights (lines 55-60). -/
def get_timepoint_weights (mc : ModelCombination) (t : ℚ) : ℕ × ℕ × ℚ × ℚ :=
  let it := max 0 (min ((mc.timepoints.length : ℚ) - 1) (fracIndex mc.timepoints t))
  let it1 := (⌊it⌋).toNat
  let it2 := (⌈it⌉).toNat
  let t1 := mc.timepoints.getD it1 0
  let t2 := mc.timepoints.getD it2 0
  if it1 = it2 then (it1, it2, 1, 0)
  else (it1, it2, 1 - (t - t1) / (t2 - t1), (t - t1) / (t2 - t1))

/-- Lines 74-86: build the forecast vector `f` and availability vector `v`
(both initialised to zeros) from the quote dictionary; a key that is not a
known model name is skipped, a known key writes its quote at the index
`self.models.index(name)` and sets the availability bit. -/
def buildFV (models : List String) (f_dict : List (String × ℚ)) :
    List ℚ × List ℚ :=
  f_dict.foldl
    (fun fv p =>
      if p.1 ∈ models then
        ((fv.1.set (models.findIdx (fun s => s == p.1)) p.2),
         (fv.2.set (models.findIdx (fun s => s == p.1)) 1))
      else fv)
    (List.replicate models.length 0, List.replicate models.length 0)

/-- Per-draw combination numerator `np.sum(w*v*f)` of lines 100-101. -/
def drawNum (w v f : List ℚ) : ℚ :=
  (List.zipWith (· * ·) (List.zipWith (· * ·) w v) f).sum

/-- Per-draw combination denominator `np.sum(w*v)` of lines 100-101. -/
def drawDen (w v : List ℚ) : ℚ :=
  (List.zipWith (· * ·) w v).sum

/-- Running cumulative sum (`np.cumsum`, line 112). -/
def cumsumFrom (acc : ℚ) : List ℚ → List ℚ
  | [] => []
  | w :: ws => (acc + w) :: cumsumFrom (acc + w) ws

/-- `np.cumsum` starting from 0. -/
def cumsum (l : List ℚ) : List ℚ := cumsumFrom 0 l

/-- Semantics of the PPF lookup of line 113.  For 1-d float data with finite
fill values scipy's `interp1d.__call__` delegates to `np.interp`, whose fill
values coincide with the tuple `(f_bar_dist[0], f_bar_dist[-1])` passed at
line 113.  `np.interp` on a nondecreasing grid `xs`: with `j` the number of
grid points ≤ q, a query left of the grid returns the first `ys`, right of
(or at) the last grid point returns the last `ys`, an exact hit on grid point
`j-1` returns `ys[j-1]`, and otherwise the two neighbouring points are
interpolated linearly (`xs[j-1] < q < xs[j]`, so the slope is well defined). -/
def interpCount (xs : List ℚ) (q : ℚ) : ℕ :=
  xs.countP (fun x => decide (x ≤ q))

def npInterp (xs ys : List ℚ) (q : ℚ) : ℚ :=
  let j := interpCount xs q
  if j = 0 then ys.headD 0
  else if j = xs.length then ys.getLastD 0
  else if xs.getD (j - 1) 0 = q then ys.getD (j - 1) 0
  else
    ys.getD (j - 1) 0 +
      (ys.getD j 0 - ys.getD (j - 1) 0) / (xs.getD j 0 - xs.getD (j - 1) 0) *
        (q - xs.getD (j - 1) 0)

/-- Lines 89-104: the pooled per-draw combination samples.  Each draw of the
two bracketing anchors' ensembles contributes the renormalised average
`Σ w v f / Σ w v` with pooling mass `wt_k / n_k`. -/
def pooledSamples (mc : ModelCombination) (f_dict : List (String × ℚ)) (t : ℚ) :
    List (ℚ × ℚ) :=
  let f := (buildFV mc.models f_dict).1
  let v := (buildFV mc.models f_dict).2
  let g := get_timepoint_weights mc t
  let w1_dist := mc.posterior_dist.getD g.1 []
  let w2_dist := mc.posterior_dist.getD g.2.1 []
  w1_dist.map (fun w => (drawNum w v f / drawDen w v, g.2.2.1 / (w1_dist.length : ℚ))) ++
    w2_dist.map (fun w => (drawNum w v f / drawDen w v, g.2.2.2 / (w2_dist.length : ℚ)))

/-- Lines 107-109: samples sorted by value (`np.argsort` then fancy indexing),
keeping each sample's pooling mass attached. -/
def sortedSamples (mc : ModelCombination) (f_dict : List (String × ℚ)) (t : ℚ) :
    List (ℚ × ℚ) :=
  List.insertionSort (fun p q : ℚ × ℚ => p.1 ≤ q.1) (pooledSamples mc f_dict t)

/-- The query is NaN-poisoned exactly when one of the bracketing ensembles is
empty (`np.average` then divides by zero weight mass and the PPF interp1d lacks
its two required points) or some draw gives the available subset total weight
zero (0/0 at lines 100-101 propagates NaN through every downstream statistic). -/
def combineBad (mc : ModelCombination) (f_dict : List (String × ℚ)) (t : ℚ) : Prop :=
  let v := (buildFV mc.models f_dict).2
  let g := get_timepoint_weights mc t
  let w1_dist := mc.posterior_dist.getD g.1 []
  let w2_dist := mc.posterior_dist.getD g.2.1 []
  w1_dist = [] ∨ w2_dist = [] ∨ ∃ w ∈ w1_dist ++ w2_dist, drawDen w v = 0

instance (mc : ModelCombination) (f_dict : List (String × ℚ)) (t : ℚ) :
    Decidable (combineBad mc f_dict t) := by
  unfold combineBad
  exact inferInstance

/-- Point estimate `np.average(f_bar_dist, weights=sample_weights)` of line
116: mass-weighted mean of the pooled samples. -/
def combineEstimate (mc : ModelCombination) (f_dict : List (String × ℚ)) (t : ℚ) : ℚ :=
  let s := sortedSamples mc f_dict t
  (s.map (fun p => p.1 * p.2)).sum / (s.map Prod.snd).sum

/-- The weighted empirical CDF grid `CDF_vals = np.cumsum(sample_weights) /
np.sum(sample_weights)` of line 112, over the sorted samples. -/
def combineXs (mc : ModelCombination) (f_dict : List (String × ℚ)) (t : ℚ) : List ℚ :=
  let ws := (sortedSamples mc f_dict t).map Prod.snd
  (cumsum ws).map (· / ws.sum)

/-- Lower credible bound `PPF_func(alpha/2)` of line 119. -/
def combineLB (mc : ModelCombination) (f_dict : List (String × ℚ)) (t alpha : ℚ) : ℚ :=
  npInterp (combineXs mc f_dict t) ((sortedSamples mc f_dict t).map Prod.fst) (alpha / 2)

/-- Upper credible bound `PPF_func(1 - alpha/2)` of line 120. -/
def combineUB (mc : ModelCombination) (f_dict : List (String × ℚ)) (t alpha : ℚ) : ℚ :=
  npInterp (combineXs mc f_dict t) ((sortedSamples mc f_dict t).map Prod.fst) (1 - alpha / 2)

/-- `ModelCombination.combine_forecasts` (lines 64-124) over exact rationals:
`none` models the NaN-poisoned / error outcomes (the function raises no
exception of its own); otherwise the result is the point estimate
(`np.average`, line 116) and the lower/upper inverse-CDF credible bounds at
`alpha/2` and `1 - alpha/2` (lines 112-122). -/
def combine_forecasts (mc : ModelCombination) (f_dict : List (String × ℚ))
    (t : ℚ) (alpha : ℚ) : Option (ℚ × ℚ × ℚ) :=
  if combineBad mc f_dict t then none
  else
    some (combineEstimate mc f_dict t, combineLB mc f_dict t alpha,
      combineUB mc f_dict t alpha)

/-- Inversion of a successful `combine_forecasts` call into its components. -/
lemma combine_forecasts_eq_some (mc : ModelCombination) (f_dict : List (String × ℚ))
    (t alpha : ℚ) (e l u : ℚ)
    (h : combine_forecasts mc f_dict t alpha = some (e, l, u)) :
    ¬ combineBad mc f_dict t ∧ e = combineEstimate mc f_dict t ∧
      l = combineLB mc f_dict t alpha ∧ u = combineUB mc f_dict t alpha := by
  by_cases hb : combineBad mc f_dict t
  · rw [combine_forecasts, if_pos hb] at h
    exact absurd h (by simp)
  · rw [combine_forecasts, if_neg hb] at h
    simp only [Option.some.injEq, Prod.mk.injEq] at h
    exact ⟨hb, h.1.symm, h.2.1.symm, h.2.2.symm⟩

/-- The weight-posterior ensemble of the C1 scenario: two anchors, t = -6 with
five identical draws (0.4, 0.6) and t = -2 with five identical draws
(0.7, 0.3), for forecasters A and B. -/
def mcC1 : ModelCombination :=
  ⟨[-6, -2], ["A", "B"],
    [List.replicate 5 [2/5, 3/5], List.replicate 5 [7/10, 3/10]]⟩

lemma floor_ratHalf : ⌊(1/2 : ℚ)⌋ = 0 := by
  rw [Int.floor_eq_iff] <;> norm_num

lemma ceil_ratHalf : ⌈(1/2 : ℚ)⌉ = 1 := by
  rw [Int.ceil_eq_iff] <;> norm_num

/-- The two interpolation weights of `get_timepoint_weights` always sum to 1
(lines 55-60: either (1, 0) or (1 - wt2, wt2)). -/
lemma gtw_weights_sum_one (mc : ModelCombination) (t : ℚ) :
    (get_timepoint_weights mc t).2.2.1 + (get_timepoint_weights mc t).2.2.2 = 1 := by
  simp only [get_timepoint_weights]
  split <;> simp

lemma gtw_anchors62_at4 (mc : ModelCombination) (h : mc.timepoints = [-6, -2]) :
    get_timepoint_weights mc (-4) = (0, 1, 1/2, 1/2) := by
  have h2 : max (0:ℚ) (min ((([(-6:ℚ), -2]).length : ℚ) - 1) (fracIndex [-6, -2] (-4))) = 1/2 := by
    norm_num [fracIndex]
  simp only [get_timepoint_weights, h, h2, floor_ratHalf, ceil_ratHalf]
  norm_num

lemma mcC1_gtw : get_timepoint_weights mcC1 (-4) = (0, 1, 1/2, 1/2) :=
  gtw_anchors62_at4 mcC1 rfl

lemma mcC1_fv :
    buildFV mcC1.models [("A", 3/5), ("B", 4/5)] = ([3/5, 4/5], [1, 1]) := by
  simp [buildFV, mcC1, List.findIdx, List.findIdx.go, List.replicate, List.set]

set_option maxHeartbeats 1000000 in
lemma mcC1_sorted :
    sortedSamples mcC1 [("A", 3/5), ("B", 4/5)] (-4) =
      List.replicate 5 (33/50, 1/10) ++ List.replicate 5 (18/25, 1/10) := by
  have hp : pooledSamples mcC1 [("A", 3/5), ("B", 4/5)] (-4) =
      List.replicate 5 (18/25, 1/10) ++ List.replicate 5 (33/50, 1/10) := by
    simp only [pooledSamples, mcC1_fv, mcC1_gtw]
    norm_num [mcC1, drawNum, drawDen, List.replicate]
  rw [sortedSamples, hp]
  norm_num [List.replicate, List.insertionSort, List.orderedInsert]

lemma mcC1_not_bad : ¬ combineBad mcC1 [("A", 3/5), ("B", 4/5)] (-4) := by
  simp only [combineBad, mcC1_fv, mcC1_gtw]
  norm_num [mcC1, drawDen, List.replicate]
  exact ⟨by simp, by simp⟩

lemma mcC1_ys :
    (sortedSamples mcC1 [("A", 3/5), ("B", 4/5)] (-4)).map Prod.fst =
      List.replicate 5 (33/50) ++ List.replicate 5 (18/25) := by
  rw [mcC1_sorted]
  norm_num [List.replicate]

lemma mcC1_xs :
    combineXs mcC1 [("A", 3/5), ("B", 4/5)] (-4) =
      [1/10, 1/5, 3/10, 2/5, 1/2, 3/5, 7/10, 4/5, 9/10, 1] := by
  simp only [combineXs, mcC1_sorted]
  norm_num [List.replicate, cumsum, cumsumFrom]

lemma mcC1_estimate :
    combineEstimate mcC1 [("A", 3/5), ("B", 4/5)] (-4) = 69/100 := by
  simp only [combineEstimate, mcC1_sorted]
  norm_num [List.replicate]

/-- **C1**: for the two-anchor ensemble over forecasters (A, B) with five
identical posterior draws w = (0.4, 0.6) at t = -6 and five identical draws
w = (0.7, 0.3) at t = -2, the query combine_forecasts({A: 0.6, B: 0.8}, t = -4,
alpha = 0.05) yields interpolation weights 0.5 for each anchor, per-anchor
combined probabilities 0.72 (anchor t = -6) and 0.66 (anchor t = -2), pooled
point estimate 0.69, and 95% credible interval [0.66, 0.72]. -/
theorem C1_concrete_scenario :
    get_timepoint_weights mcC1 (-4) = (0, 1, 1/2, 1/2) ∧
    drawNum [2/5, 3/5] [1, 1] [3/5, 4/5] / drawDen [2/5, 3/5] [1, 1] = 18/25 ∧
    drawNum [7/10, 3/10] [1, 1] [3/5, 4/5] / drawDen [7/10, 3/10] [1, 1] = 33/50 ∧
    combine_forecasts mcC1 [("A", 3/5), ("B", 4/5)] (-4) (1/20) =
      some (69/100, 33/50, 18/25) := by
  refine ⟨mcC1_gtw, by norm_num [drawNum, drawDen], by norm_num [drawNum, drawDen], ?_⟩
  rw [combine_forecasts, if_neg mcC1_not_bad, mcC1_estimate, combineLB, combineUB,
    mcC1_xs, mcC1_ys]
  norm_num [npInterp, interpCount, List.replicate, List.countP, List.countP.go]

/-- Ensemble with a recognised forecaster A whose weight is zero in the single
posterior draw at both anchors; used to refute the claimed error condition. -/
def mcC2cex : ModelCombination := ⟨[-6, -2], ["A", "B"], [[[0, 1]], [[0, 1]]]⟩

/-- **C2, counterexample**: `combine_forecasts` raises no `InvalidQueryError`
(no such class exists in the repository), and the abnormal outcome is not tied
to "no recognised key": here the quote map contains the recognised forecaster A,
yet the query is still NaN-poisoned (every posterior draw gives the available
subset zero total weight, so lines 100-101 compute 0/0), refuting
"fails ... exactly when no key of the supplied quote map is recognised". -/
theorem C2_counterexample :
    "A" ∈ mcC2cex.models ∧
      combine_forecasts mcC2cex [("A", 1/2)] (-4) (1/20) = none := by
  constructor
  · simp [mcC2cex]
  · rw [combine_forecasts, if_pos]
    simp only [combineBad, gtw_anchors62_at4 mcC2cex rfl]
    refine Or.inr (Or.inr ⟨[0, 1], ?_, ?_⟩)
    · simp [mcC2cex]
    · norm_num [drawDen, buildFV, List.findIdx, List.findIdx.go, List.replicate, mcC2cex]

lemma buildFV_of_no_known_key (models : List String) (f_dict : List (String × ℚ))
    (h : ∀ p ∈ f_dict, p.1 ∉ models) :
    buildFV models f_dict =
      (List.replicate models.length 0, List.replicate models.length 0) := by
  unfold buildFV
  induction f_dict with
  | nil => rfl
  | cons p l ih =>
    rw [List.foldl_cons, if_neg (h p (List.mem_cons_self p l))]
    exact ih fun x hx => h x (List.mem_cons_of_mem p hx)

lemma drawDen_replicate_zero (w : List ℚ) (n : ℕ) :
    drawDen w (List.replicate n 0) = 0 := by
  unfold drawDen
  induction w generalizing n with
  | nil => simp
  | cons a l ih =>
    cases n with
    | zero => simp
    | succ m =>
      rw [List.replicate_succ, List.zipWith_cons_cons]
      simpa using ih m

lemma buildFV_append_unknown (models : List String) (f_dict : List (String × ℚ))
    (name : String) (q : ℚ) (h : name ∉ models) :
    buildFV models (f_dict ++ [(name, q)]) = buildFV models f_dict := by
  unfold buildFV
  rw [List.foldl_append, List.foldl_cons, if_neg h, List.foldl_nil]

/-- **C2, amended**: `combine_forecasts` raises nothing.  When no key of the
quote map is a recognised forecaster, every per-draw denominator Σ w·v is zero
and the result is undefined (NaN in the code, `none` here) — such an undefined
result can also arise with a recognised key present (see `C2_counterexample`).
A quote-map key that is not a known forecaster is silently ignored and never by
itself changes the outcome. -/
theorem C2_unknown_keys_ignored_and_no_recognized_key_undefined
    (mc : ModelCombination) (f_dict : List (String × ℚ)) (t alpha : ℚ)
    (name : String) (q : ℚ) :
    ((∀ p ∈ f_dict, p.1 ∉ mc.models) →
        combine_forecasts mc f_dict t alpha = none) ∧
    (name ∉ mc.models →
        combine_forecasts mc (f_dict ++ [(name, q)]) t alpha =
          combine_forecasts mc f_dict t alpha) := by
  constructor
  · intro h
    rw [combine_forecasts, if_pos]
    simp only [combineBad, buildFV_of_no_known_key mc.models f_dict h]
    cases hw : mc.posterior_dist.getD (get_timepoint_weights mc t).1 [] with
    | nil => exact Or.inl rfl
    | cons w ws =>
      refine Or.inr (Or.inr ⟨w, List.mem_append_left _ ?_, drawDen_replicate_zero w _⟩)
      exact List.mem_cons_self w ws
  · intro h
    have hfv := buildFV_append_unknown mc.models f_dict name q h
    simp only [combine_forecasts, combineBad, combineEstimate, combineLB, combineUB,
      combineXs, sortedSamples, pooledSamples, hfv]

/-- Witness for `C2_unknown_keys_ignored_and_no_recognized_key_undefined` at a
concrete ensemble and quote maps. -/
theorem C2_witness :
    combine_forecasts mcC2cex [("X", 1/2)] (-4) (1/20) = none ∧
      combine_forecasts mcC2cex ([("A", 1/2)] ++ [("Y", 1)]) (-4) (1/20) =
        combine_forecasts mcC2cex [("A", 1/2)] (-4) (1/20) := by
  constructor
  · exact (C2_unknown_keys_ignored_and_no_recognized_key_undefined mcC2cex
      [("X", 1/2)] (-4) (1/20) "Y" 1).1 (by decide)
  · exact (C2_unknown_keys_ignored_and_no_recognized_key_undefined mcC2cex
      [("A", 1/2)] (-4) (1/20) "Y" 1).2 (by decide)

lemma zipWith_mul_replicate_zero (l : List ℚ) (n : ℕ) :
    List.zipWith (· * ·) l (List.replicate n (0:ℚ)) = List.replicate (min l.length n) 0 := by
  induction l generalizing n with
  | nil => simp
  | cons a w ih =>
    cases n with
    | zero => simp
    | succ m =>
      rw [List.replicate_succ, List.zipWith_cons_cons, ih]
      simp [List.replicate_succ, Nat.succ_min_succ]

lemma sum_replicate_zero (n : ℕ) : (List.replicate n (0:ℚ)).sum = 0 := by
  induction n with
  | zero => rfl
  | succ m ih => rw [List.replicate_succ, List.sum_cons, ih, add_zero]

lemma sum_set_replicate_zero (m j : ℕ) (x : ℚ) (hj : j < m) :
    ((List.replicate m (0:ℚ)).set j x).sum = x := by
  induction m generalizing j with
  | zero => omega
  | succ n ih =>
    cases j with
    | zero => simp [List.replicate_succ, sum_replicate_zero]
    | succ i =>
      rw [List.replicate_succ, List.set_cons_succ, List.sum_cons,
        ih i (Nat.lt_of_succ_lt_succ hj), zero_add]

lemma zipWith_mul_onehot (w : List ℚ) (m j : ℕ) (hw : w.length = m) (hj : j < m) :
    List.zipWith (· * ·) w ((List.replicate m (0:ℚ)).set j 1) =
      (List.replicate m (0:ℚ)).set j (w.getD j 0) := by
  induction w generalizing m j with
  | nil => simp at hw; omega
  | cons a l ih =>
    cases m with
    | zero => omega
    | succ n =>
      cases j with
      | zero =>
        rw [List.replicate_succ, List.set_cons_zero, List.set_cons_zero,
          List.zipWith_cons_cons, zipWith_mul_replicate_zero]
        have : l.length = n := by simpa using hw
        simp [this]
      | succ i =>
        rw [List.replicate_succ, List.set_cons_succ, List.set_cons_succ,
          List.zipWith_cons_cons, ih n i (by simpa using hw) (Nat.lt_of_succ_lt_succ hj)]
        simp

lemma replicate_zero_zipWith_mul (n : ℕ) (l : List ℚ) :
    List.zipWith (· * ·) (List.replicate n (0:ℚ)) l = List.replicate (min n l.length) 0 := by
  induction l generalizing n with
  | nil => simp
  | cons a w ih =>
    cases n with
    | zero => simp
    | succ m =>
      rw [List.replicate_succ, List.zipWith_cons_cons, ih]
      simp [List.replicate_succ, Nat.succ_min_succ]

lemma zipWith_onehot_mul (f : List ℚ) (m j : ℕ) (x : ℚ) (hf : f.length = m) (hj : j < m) :
    List.zipWith (· * ·) ((List.replicate m (0:ℚ)).set j x) f =
      (List.replicate m (0:ℚ)).set j (x * f.getD j 0) := by
  induction f generalizing m j with
  | nil => simp at hf; omega
  | cons a l ih =>
    cases m with
    | zero => omega
    | succ n =>
      cases j with
      | zero =>
        rw [List.replicate_succ, List.set_cons_zero, List.set_cons_zero,
          List.zipWith_cons_cons, replicate_zero_zipWith_mul]
        have : l.length = n := by simpa using hf
        simp [this]
      | succ i =>
        rw [List.replicate_succ, List.set_cons_succ, List.set_cons_succ,
          List.zipWith_cons_cons, ih n i (by simpa using hf) (Nat.lt_of_succ_lt_succ hj)]
        simp

lemma buildFV_lengths (models : List String) (l : List (String × ℚ)) :
    (buildFV models l).1.length = models.length ∧
      (buildFV models l).2.length = models.length := by
  unfold buildFV
  generalize hinit : (List.replicate models.length (0:ℚ), List.replicate models.length (0:ℚ)) = init
  have h1 : init.1.length = models.length := by rw [← hinit]; simp
  have h2 : init.2.length = models.length := by rw [← hinit]; simp
  clear hinit
  induction l generalizing init with
  | nil => exact ⟨h1, h2⟩
  | cons p l ih =>
    rw [List.foldl_cons]
    refine ih _ ?_ ?_ <;> by_cases hp : p.1 ∈ models <;> simp [hp, h1, h2]

lemma drawVal_onehot (w f : List ℚ) (m j : ℕ) (q : ℚ)
    (hw : w.length = m) (hf : f.length = m) (hj : j < m) (hfj : f.getD j 0 = q) :
    drawNum w ((List.replicate m 0).set j 1) f = w.getD j 0 * q ∧
      drawDen w ((List.replicate m 0).set j 1) = w.getD j 0 := by
  constructor
  · unfold drawNum
    rw [zipWith_mul_onehot w m j hw hj, zipWith_onehot_mul f m j _ hf hj, hfj,
      sum_set_replicate_zero m j _ hj]
  · unfold drawDen
    rw [zipWith_mul_onehot w m j hw hj, sum_set_replicate_zero m j _ hj]

lemma sum_map_const_rat {α : Type} (l : List α) (c : ℚ) :
    (l.map (fun _ => c)).sum = l.length * c := by
  induction l with
  | nil => simp
  | cons a w ih =>
    rw [List.map_cons, List.sum_cons, ih, List.length_cons]
    push_cast
    ring

/-- **C4**: if the quote map recognises exactly one forecaster j, quoted at q,
and every posterior draw at the bracketing anchors is a weight vector of the
right length assigning forecaster j positive weight (and the bracketing
ensembles are nonempty, as any trained ensemble's are), then the combination
query succeeds and its point estimate is exactly q. -/
theorem C4_single_forecaster_identity
    (mc : ModelCombination) (f_dict : List (String × ℚ)) (t alpha q : ℚ) (j : ℕ)
    (hj : j < mc.models.length)
    (hv : (buildFV mc.models f_dict).2 =
      (List.replicate mc.models.length 0).set j 1)
    (hq : (buildFV mc.models f_dict).1.getD j 0 = q)
    (hne1 : mc.posterior_dist.getD (get_timepoint_weights mc t).1 [] ≠ [])
    (hne2 : mc.posterior_dist.getD (get_timepoint_weights mc t).2.1 [] ≠ [])
    (hdraw : ∀ w ∈ mc.posterior_dist.getD (get_timepoint_weights mc t).1 [] ++
        mc.posterior_dist.getD (get_timepoint_weights mc t).2.1 [],
        w.length = mc.models.length ∧ 0 < w.getD j 0) :
    ∃ lb ub, combine_forecasts mc f_dict t alpha = some (q, lb, ub) := by
  have hflen := (buildFV_lengths mc.models f_dict).1
  have hval : ∀ w ∈ mc.posterior_dist.getD (get_timepoint_weights mc t).1 [] ++
      mc.posterior_dist.getD (get_timepoint_weights mc t).2.1 [],
      drawNum w (buildFV mc.models f_dict).2 (buildFV mc.models f_dict).1 /
        drawDen w (buildFV mc.models f_dict).2 = q ∧
        drawDen w (buildFV mc.models f_dict).2 ≠ 0 := by
    intro w hw
    obtain ⟨hwlen, hwpos⟩ := hdraw w hw
    obtain ⟨hnum, hden⟩ := drawVal_onehot w (buildFV mc.models f_dict).1
      mc.models.length j q hwlen hflen hj hq
    rw [hv, hnum, hden]
    exact ⟨mul_div_cancel_left₀ q (ne_of_gt hwpos), ne_of_gt hwpos⟩
  have hbad : ¬ combineBad mc f_dict t := by
    simp only [combineBad]
    push_neg
    exact ⟨hne1, hne2, fun w hw => (hval w hw).2⟩
  -- every pooled sample has value q
  have hsq : ∀ p ∈ sortedSamples mc f_dict t, p.1 = q := by
    intro p hp
    rw [sortedSamples, (List.perm_insertionSort _ _).mem_iff] at hp
    simp only [pooledSamples] at hp
    rcases List.mem_append.mp hp with hp1 | hp1
    · obtain ⟨w, hw, hwp⟩ := List.mem_map.mp hp1
      rw [← hwp]
      exact (hval w (List.mem_append_left _ hw)).1
    · obtain ⟨w, hw, hwp⟩ := List.mem_map.mp hp1
      rw [← hwp]
      exact (hval w (List.mem_append_right _ hw)).1
  -- total pooled mass is 1
  have htotal : ((sortedSamples mc f_dict t).map Prod.snd).sum = 1 := by
    have hperm : ((sortedSamples mc f_dict t).map Prod.snd).sum =
        ((pooledSamples mc f_dict t).map Prod.snd).sum :=
      ((List.perm_insertionSort _ _).map Prod.snd).sum_eq
    rw [hperm]
    simp only [pooledSamples, List.map_append, List.map_map, List.sum_append]
    have hc : ∀ (d : List (List ℚ)) (c : ℚ),
        (d.map ((fun p : ℚ × ℚ => p.2) ∘
          (fun w => (drawNum w (buildFV mc.models f_dict).2 (buildFV mc.models f_dict).1 /
            drawDen w (buildFV mc.models f_dict).2, c)))).sum = d.length * c := by
      intro d c
      exact sum_map_const_rat d c
    rw [hc, hc]
    have hn1 : ((mc.posterior_dist.getD (get_timepoint_weights mc t).1 []).length : ℚ) ≠ 0 := by
      have := List.length_pos.mpr hne1
      positivity
    have hn2 : ((mc.posterior_dist.getD (get_timepoint_weights mc t).2.1 []).length : ℚ) ≠ 0 := by
      have := List.length_pos.mpr hne2
      positivity
    rw [mul_comm (((mc.posterior_dist.getD (get_timepoint_weights mc t).1 []).length : ℚ)) _,
      mul_comm (((mc.posterior_dist.getD (get_timepoint_weights mc t).2.1 []).length : ℚ)) _,
      div_mul_cancel₀ _ hn1, div_mul_cancel₀ _ hn2]
    exact gtw_weights_sum_one mc t
  have hest : combineEstimate mc f_dict t = q := by
    simp only [combineEstimate]
    have hmap : (sortedSamples mc f_dict t).map (fun p => p.1 * p.2) =
        (sortedSamples mc f_dict t).map (fun p => q * p.2) :=
      List.map_congr_left fun p hp => by rw [hsq p hp]
    have hmul : ((sortedSamples mc f_dict t).map (fun p => q * p.2)).sum =
        q * ((sortedSamples mc f_dict t).map Prod.snd).sum :=
      List.sum_map_mul_left (sortedSamples mc f_dict t) Prod.snd q
    rw [hmap, hmul, htotal]
    norm_num
  refine ⟨combineLB mc f_dict t alpha, combineUB mc f_dict t alpha, ?_⟩
  rw [combine_forecasts, if_neg hbad, hest]

/-- Two-anchor ensemble whose single posterior draw splits weight evenly
between A and B; used as the C4 witness ensemble. -/
def mcC4w : ModelCombination :=
  ⟨[-6, -2], ["A", "B"], [[[1/2, 1/2]], [[1/2, 1/2]]]⟩

/-- Witness for `C4_single_forecaster_identity`: quoting only A = 0.7 returns
point estimate exactly 0.7. -/
theorem C4_witness :
    ∃ lb ub, combine_forecasts mcC4w [("A", 7/10)] (-4) (1/20) =
      some (7/10, lb, ub) := by
  refine C4_single_forecaster_identity mcC4w [("A", 7/10)] (-4) (1/20) (7/10) 0
    (by norm_num [mcC4w])
    (by simp [buildFV, mcC4w, List.findIdx, List.findIdx.go, List.replicate])
    (by simp [buildFV, mcC4w, List.findIdx, List.findIdx.go, List.replicate])
    ?_ ?_ ?_ <;>
    rw [gtw_anchors62_at4 mcC4w rfl]
  · simp [mcC4w]
  · simp [mcC4w]
  · intro w hw
    simp only [mcC4w] at hw
    simp only [List.getD] at hw
    norm_num at hw
    rw [hw]
    norm_num [mcC4w]

lemma fracIndex_first_segment (a b : ℚ) (rest : List ℚ) (t : ℚ) (ht : t ≤ b) :
    fracIndex (a :: b :: rest) t = (t - a) / (b - a) := by
  cases rest with
  | nil => rfl
  | cons c rest' => simp [fracIndex, ht]

lemma fracIndex_shift (a b c : ℚ) (rest : List ℚ) (t : ℚ) (ht : ¬ t ≤ b) :
    fracIndex (a :: b :: c :: rest) t = 1 + fracIndex (b :: c :: rest) t := by
  simp [fracIndex, ht]

lemma fracIndex_nonpos_of_le_head (a b : ℚ) (rest : List ℚ) (t : ℚ)
    (hs : (a :: b :: rest).Sorted (· < ·)) (ht : t ≤ a) :
    fracIndex (a :: b :: rest) t ≤ 0 := by
  have hab : a < b := (List.sorted_cons.mp hs).1 b (List.mem_cons_self b rest)
  rw [fracIndex_first_segment a b rest t (le_trans ht (le_of_lt hab))]
  apply div_nonpos_of_nonpos_of_nonneg <;> linarith

lemma fracIndex_pair (a b t : ℚ) : fracIndex [a, b] t = (t - a) / (b - a) := rfl

lemma fracIndex_ge_of_last_le (a b : ℚ) (rest : List ℚ) (t : ℚ)
    (hs : (a :: b :: rest).Sorted (· < ·)) (ht : (b :: rest).getLast (by simp) ≤ t) :
    ((a :: b :: rest).length : ℚ) - 1 ≤ fracIndex (a :: b :: rest) t := by
  induction rest generalizing a b with
  | nil =>
    have hab : a < b := (List.sorted_cons.mp hs).1 b (by simp)
    simp only [List.getLast_singleton] at ht
    have h1 : (1:ℚ) ≤ (t - a) / (b - a) := (one_le_div (by linarith)).mpr (by linarith)
    rw [fracIndex_pair]
    norm_num
    exact h1
  | cons c rest' ih =>
    have hs' : (b :: c :: rest').Sorted (· < ·) := (List.sorted_cons.mp hs).2
    have hmem : (c :: rest').getLast (by simp) ∈ c :: rest' := List.getLast_mem _
    have hbL : b < (c :: rest').getLast (by simp) :=
      (List.sorted_cons.mp hs').1 _ hmem
    have ht' : (c :: rest').getLast (by simp) ≤ t := by
      rwa [List.getLast_cons (by simp : c :: rest' ≠ [])] at ht
    have htb : ¬ t ≤ b := by linarith
    rw [fracIndex_shift a b c rest' t htb]
    have hih := ih b c hs' ht'
    simp only [List.length_cons] at hih ⊢
    push_cast at hih ⊢
    linarith

lemma getD_mem_of_lt {α : Type} {l : List α} {n : ℕ} {d : α} (hn : n < l.length) :
    l.getD n d ∈ l := by
  rw [List.getD_eq_getElem l d hn]
  exact List.getElem_mem hn

lemma sorted_head_le_getD (x : ℚ) (l : List ℚ) (hs : (x :: l).Sorted (· < ·))
    (k : ℕ) (hk : k < (x :: l).length) : x ≤ (x :: l).getD k 0 := by
  cases k with
  | zero => simp
  | succ n =>
    rw [List.getD_cons_succ]
    have hn : n < l.length := by simpa using hk
    have hmem : l.getD n 0 ∈ l := getD_mem_of_lt hn
    exact le_of_lt ((List.sorted_cons.mp hs).1 _ hmem)

lemma fracIndex_at_anchor (a b : ℚ) (rest : List ℚ)
    (hs : (a :: b :: rest).Sorted (· < ·)) :
    ∀ k, k < (a :: b :: rest).length →
      fracIndex (a :: b :: rest) ((a :: b :: rest).getD k 0) = k := by
  induction rest generalizing a b with
  | nil =>
    intro k hk
    have hab : a < b := (List.sorted_cons.mp hs).1 b (by simp)
    match k with
    | 0 => rw [List.getD_cons_zero, fracIndex_pair]; simp
    | 1 =>
      rw [List.getD_cons_succ, List.getD_cons_zero, fracIndex_pair,
        div_self (by linarith : b - a ≠ 0)]
      norm_num
    | (n+2) => simp at hk
  | cons c rest' ih =>
    intro k hk
    have hs' : (b :: c :: rest').Sorted (· < ·) := (List.sorted_cons.mp hs).2
    have hab : a < b := (List.sorted_cons.mp hs).1 b (by simp)
    match k with
    | 0 =>
      rw [List.getD_cons_zero, fracIndex_first_segment a b _ a (le_of_lt hab)]
      simp
    | 1 =>
      rw [List.getD_cons_succ, List.getD_cons_zero,
        fracIndex_first_segment a b _ b le_rfl, div_self (by linarith : b - a ≠ 0)]
      norm_num
    | (n+2) =>
      have hgd : (a :: b :: c :: rest').getD (n+2) 0 = (b :: c :: rest').getD (n+1) 0 :=
        List.getD_cons_succ ..
      have hn1 : n + 1 < (b :: c :: rest').length := by simpa using hk
      have hbx : b < (b :: c :: rest').getD (n+1) 0 := by
        rw [List.getD_cons_succ]
        have hn : n < (c :: rest').length := by simpa using hn1
        exact (List.sorted_cons.mp hs').1 _ (getD_mem_of_lt hn)
      rw [hgd, fracIndex_shift a b c rest' _ (not_le.mpr hbx), ih b c hs' (n+1) hn1]
      push_cast
      ring

lemma fracIndex_interior_segment (a b : ℚ) (rest : List ℚ) (t : ℚ)
    (hs : (a :: b :: rest).Sorted (· < ·)) :
    ∀ k, k + 1 < (a :: b :: rest).length →
      (a :: b :: rest).getD k 0 < t → t < (a :: b :: rest).getD (k+1) 0 →
      fracIndex (a :: b :: rest) t =
        k + (t - (a :: b :: rest).getD k 0) /
          ((a :: b :: rest).getD (k+1) 0 - (a :: b :: rest).getD k 0) := by
  induction rest generalizing a b with
  | nil =>
    intro k hk h1 h2
    have hk0 : k = 0 := by simp at hk; omega
    subst hk0
    simp only [List.getD_cons_zero, List.getD_cons_succ] at h1 h2 ⊢
    rw [fracIndex_pair]
    norm_num
  | cons c rest' ih =>
    intro k hk h1 h2
    have hs' : (b :: c :: rest').Sorted (· < ·) := (List.sorted_cons.mp hs).2
    match k with
    | 0 =>
      simp only [List.getD_cons_zero, List.getD_cons_succ] at h1 h2 ⊢
      rw [fracIndex_first_segment a b _ t (le_of_lt h2)]
      norm_num
    | (n+1) =>
      have h1' : (b :: c :: rest').getD n 0 < t := by
        rwa [List.getD_cons_succ] at h1
      have h2' : t < (b :: c :: rest').getD (n+1) 0 := by
        rwa [List.getD_cons_succ] at h2
      have hn1 : n + 1 < (b :: c :: rest').length := by simpa using hk
      have hbt : b ≤ (b :: c :: rest').getD n 0 :=
        sorted_head_le_getD b (c :: rest') hs' n (by omega)
      rw [fracIndex_shift a b c rest' t (not_le.mpr (lt_of_le_of_lt hbt h1')),
        List.getD_cons_succ, List.getD_cons_succ, ih b c hs' n hn1 h1' h2']
      push_cast
      ring

lemma gtw_eq_of_clamped_nat (mc : ModelCombination) (t : ℚ) (k : ℕ)
    (h : max 0 (min ((mc.timepoints.length : ℚ) - 1) (fracIndex mc.timepoints t)) = (k : ℚ)) :
    get_timepoint_weights mc t = (k, k, 1, 0) := by
  simp only [get_timepoint_weights, h, Int.floor_natCast, Int.ceil_natCast,
    Int.toNat_natCast, if_pos rfl, if_true]

lemma gtw_eq_of_clamped_frac (mc : ModelCombination) (t : ℚ) (k : ℕ) (r : ℚ)
    (h : max 0 (min ((mc.timepoints.length : ℚ) - 1) (fracIndex mc.timepoints t)) = (k : ℚ) + r)
    (hr0 : 0 < r) (hr1 : r < 1) :
    get_timepoint_weights mc t = (k, k + 1,
      1 - (t - mc.timepoints.getD k 0) /
        (mc.timepoints.getD (k+1) 0 - mc.timepoints.getD k 0),
      (t - mc.timepoints.getD k 0) /
        (mc.timepoints.getD (k+1) 0 - mc.timepoints.getD k 0)) := by
  have hcast : ((k : ℚ) + r) = ((k : ℤ) : ℚ) + r := by push_cast; ring
  have hfl : ⌊(k : ℚ) + r⌋ = (k : ℤ) := by
    rw [hcast, Int.floor_int_add]
    have : ⌊r⌋ = 0 := Int.floor_eq_zero_iff.mpr ⟨le_of_lt hr0, hr1⟩
    omega
  have hce : ⌈(k : ℚ) + r⌉ = (k : ℤ) + 1 := by
    rw [hcast, add_comm, Int.ceil_add_int]
    have : ⌈r⌉ = 1 := by
      rw [Int.ceil_eq_iff]
      constructor
      · norm_num
        exact hr0
      · push_cast
        exact le_of_lt hr1
    omega
  have hne : (⌊(k : ℚ) + r⌋).toNat ≠ (⌈(k : ℚ) + r⌉).toNat := by
    rw [hfl, hce]
    omega
  simp only [get_timepoint_weights, h, if_neg hne, hfl, hce]
  norm_num

lemma exists_two_cons {l : List ℚ} (h2 : 2 ≤ l.length) :
    ∃ a b rest, l = a :: b :: rest := by
  rcases l with _ | ⟨a, _ | ⟨b, rest⟩⟩
  · simp at h2
  · simp at h2
  · exact ⟨a, b, rest, rfl⟩

lemma getD_last_eq (a : ℚ) (l : List ℚ) (h : l ≠ []) :
    (a :: l).getD ((a :: l).length - 1) 0 = l.getLast h := by
  induction l generalizing a with
  | nil => exact absurd rfl h
  | cons b m ih =>
    cases m with
    | nil => simp
    | cons c m' =>
      have hstep : (a :: b :: c :: m').length - 1 = m'.length + 2 := by simp
      have hih := ih b (by simp : c :: m' ≠ [])
      have hlen : (b :: c :: m').length - 1 = m'.length + 1 := by simp
      rw [hlen] at hih
      rw [hstep, List.getD_cons_succ, hih, List.getLast_cons (by simp : c :: m' ≠ [])]

/-- Queries at or left of the first anchor get index (0, 0) and weights (1, 0):
the clamp at line 23 pins the interpolated index to 0. -/
lemma gtw_below (mc : ModelCombination) (t : ℚ)
    (hs : mc.timepoints.Sorted (· < ·)) (h2 : 2 ≤ mc.timepoints.length)
    (ht : t ≤ mc.timepoints.getD 0 0) :
    get_timepoint_weights mc t = (0, 0, 1, 0) := by
  obtain ⟨a, b, rest, hts⟩ := exists_two_cons h2
  have hfr : fracIndex mc.timepoints t ≤ 0 := by
    rw [hts]
    exact fracIndex_nonpos_of_le_head a b rest t (hts ▸ hs) (by rw [hts] at ht; simpa using ht)
  have hK1 : (0:ℚ) ≤ (mc.timepoints.length : ℚ) - 1 := by
    have : (2:ℚ) ≤ (mc.timepoints.length : ℚ) := by exact_mod_cast h2
    linarith
  have hcl : max 0 (min ((mc.timepoints.length : ℚ) - 1) (fracIndex mc.timepoints t)) =
      ((0:ℕ) : ℚ) := by
    rw [min_eq_right (le_trans hfr hK1), max_eq_left hfr]
    norm_num
  exact gtw_eq_of_clamped_nat mc t 0 hcl

/-- Queries at or right of the last anchor get index (K-1, K-1) and weights
(1, 0): the clamp at line 23 pins the interpolated index to K-1. -/
lemma gtw_above (mc : ModelCombination) (t : ℚ)
    (hs : mc.timepoints.Sorted (· < ·)) (h2 : 2 ≤ mc.timepoints.length)
    (ht : mc.timepoints.getD (mc.timepoints.length - 1) 0 ≤ t) :
    get_timepoint_weights mc t =
      (mc.timepoints.length - 1, mc.timepoints.length - 1, 1, 0) := by
  obtain ⟨a, b, rest, hts⟩ := exists_two_cons h2
  have hlast : (b :: rest).getLast (by simp) ≤ t := by
    rw [hts, getD_last_eq a (b :: rest) (by simp)] at ht
    exact ht
  have hfr : (mc.timepoints.length : ℚ) - 1 ≤ fracIndex mc.timepoints t := by
    rw [hts]
    exact fracIndex_ge_of_last_le a b rest t (hts ▸ hs) hlast
  have hK1 : (0:ℚ) ≤ (mc.timepoints.length : ℚ) - 1 := by
    have : (2:ℚ) ≤ (mc.timepoints.length : ℚ) := by exact_mod_cast h2
    linarith
  have hcl : max 0 (min ((mc.timepoints.length : ℚ) - 1) (fracIndex mc.timepoints t)) =
      ((mc.timepoints.length - 1 : ℕ) : ℚ) := by
    rw [min_eq_left hfr, max_eq_right hK1, Nat.cast_sub (by omega)]
    norm_num
  exact gtw_eq_of_clamped_nat mc t (mc.timepoints.length - 1) hcl

/-- A query exactly at anchor k gets index (k, k) and weights (1, 0): the
interpolated index is the integer k, whose floor and ceiling coincide. -/
lemma gtw_at_anchor (mc : ModelCombination) (t : ℚ) (k : ℕ)
    (hs : mc.timepoints.Sorted (· < ·)) (h2 : 2 ≤ mc.timepoints.length)
    (hk : k < mc.timepoints.length) (ht : mc.timepoints.getD k 0 = t) :
    get_timepoint_weights mc t = (k, k, 1, 0) := by
  obtain ⟨a, b, rest, hts⟩ := exists_two_cons h2
  have hfr : fracIndex mc.timepoints t = (k : ℚ) := by
    rw [hts, ← ht, hts]
    exact fracIndex_at_anchor a b rest (hts ▸ hs) k (by rw [← hts]; exact hk)
  have hkK : (k : ℚ) ≤ (mc.timepoints.length : ℚ) - 1 := by
    have : (k : ℚ) + 1 ≤ (mc.timepoints.length : ℚ) := by exact_mod_cast hk
    linarith
  have hcl : max 0 (min ((mc.timepoints.length : ℚ) - 1) (fracIndex mc.timepoints t)) =
      (k : ℚ) := by
    rw [hfr, min_eq_right hkK, max_eq_right (by positivity)]
  exact gtw_eq_of_clamped_nat mc t k hcl

/-- A query strictly between anchors k and k+1 gets the bracketing indices and
the linear interpolation weights of lines 59-60. -/
lemma gtw_interior (mc : ModelCombination) (t : ℚ) (k : ℕ)
    (hs : mc.timepoints.Sorted (· < ·)) (h2 : 2 ≤ mc.timepoints.length)
    (hk : k + 1 < mc.timepoints.length)
    (h1 : mc.timepoints.getD k 0 < t) (hlt : t < mc.timepoints.getD (k+1) 0) :
    get_timepoint_weights mc t = (k, k + 1,
      1 - (t - mc.timepoints.getD k 0) /
        (mc.timepoints.getD (k+1) 0 - mc.timepoints.getD k 0),
      (t - mc.timepoints.getD k 0) /
        (mc.timepoints.getD (k+1) 0 - mc.timepoints.getD k 0)) := by
  obtain ⟨a, b, rest, hts⟩ := exists_two_cons h2
  have hfr : fracIndex mc.timepoints t = (k : ℚ) +
      (t - mc.timepoints.getD k 0) /
        (mc.timepoints.getD (k+1) 0 - mc.timepoints.getD k 0) := by
    conv_lhs => rw [hts]
    rw [hts] at hk h1 hlt ⊢
    exact fracIndex_interior_segment a b rest t (hts ▸ hs) k hk h1 hlt
  have hden : 0 < mc.timepoints.getD (k+1) 0 - mc.timepoints.getD k 0 := by linarith
  have hr0 : 0 < (t - mc.timepoints.getD k 0) /
      (mc.timepoints.getD (k+1) 0 - mc.timepoints.getD k 0) :=
    div_pos (by linarith) hden
  have hr1 : (t - mc.timepoints.getD k 0) /
      (mc.timepoints.getD (k+1) 0 - mc.timepoints.getD k 0) < 1 :=
    (div_lt_one hden).mpr (by linarith)
  have hkK : (k : ℚ) + (t - mc.timepoints.getD k 0) /
      (mc.timepoints.getD (k+1) 0 - mc.timepoints.getD k 0) ≤
      (mc.timepoints.length : ℚ) - 1 := by
    have : (k : ℚ) + 2 ≤ (mc.timepoints.length : ℚ) := by exact_mod_cast hk
    linarith
  have hcl : max 0 (min ((mc.timepoints.length : ℚ) - 1) (fracIndex mc.timepoints t)) =
      (k : ℚ) + (t - mc.timepoints.getD k 0) /
        (mc.timepoints.getD (k+1) 0 - mc.timepoints.getD k 0) := by
    rw [hfr, min_eq_right hkK, max_eq_right (by positivity)]
  exact gtw_eq_of_clamped_frac mc t k _ hcl hr0 hr1

/-- **C5, counterexample**: with a single anchor (K = 1) the ensemble cannot be
constructed at all — `__init__` feeds one point into
`interp1d(kind='linear')`, which scipy rejects ("x and y arrays must have at
least 2 entries") — so `locate` cannot "give the first anchor full weight 1"
there; the claim's "K ≥ 1" must be "K ≥ 2". -/
theorem C5_counterexample : ModelCombination.init? [-6] ["A"] [[[1]]] = none := by
  simp [ModelCombination.init?]

/-- **C5, amended**: for a constructible ensemble (strictly increasing anchors,
K ≥ 2) and every query time t, `get_timepoint_weights` clamps the query into
the anchor range: at or left of the first anchor it returns (0, 0) with weights
(1, 0); at or right of the last anchor it returns (K-1, K-1) with weights
(1, 0); exactly on anchor k it returns (k, k) with weights (1, 0); strictly
between anchors k and k+1 it returns those bracketing indices with
α2 = (t - t_k)/(t_{k+1} - t_k) and α1 = 1 - α2. -/
theorem C5_locate_clamps (mc : ModelCombination) (t : ℚ)
    (hs : mc.timepoints.Sorted (· < ·)) (hK : 2 ≤ mc.timepoints.length) :
    (t ≤ mc.timepoints.getD 0 0 → get_timepoint_weights mc t = (0, 0, 1, 0)) ∧
    (mc.timepoints.getD (mc.timepoints.length - 1) 0 ≤ t →
      get_timepoint_weights mc t =
        (mc.timepoints.length - 1, mc.timepoints.length - 1, 1, 0)) ∧
    (∀ k, k < mc.timepoints.length → mc.timepoints.getD k 0 = t →
      get_timepoint_weights mc t = (k, k, 1, 0)) ∧
    (∀ k, k + 1 < mc.timepoints.length → mc.timepoints.getD k 0 < t →
      t < mc.timepoints.getD (k+1) 0 →
      get_timepoint_weights mc t = (k, k + 1,
        1 - (t - mc.timepoints.getD k 0) /
          (mc.timepoints.getD (k+1) 0 - mc.timepoints.getD k 0),
        (t - mc.timepoints.getD k 0) /
          (mc.timepoints.getD (k+1) 0 - mc.timepoints.getD k 0))) :=
  ⟨fun ht => gtw_below mc t hs hK ht,
   fun ht => gtw_above mc t hs hK ht,
   fun k hk ht => gtw_at_anchor mc t k hs hK hk ht,
   fun k hk h1 h2 => gtw_interior mc t k hs hK hk h1 h2⟩

/-- Three-anchor ensemble used to witness `C5_locate_clamps`. -/
def mcC5w : ModelCombination := ⟨[0, 4, 10], [], []⟩

/-- Witness for `C5_locate_clamps`: the query t = 5 falls strictly between the
anchors 4 and 10 and gets weights (5/6, 1/6). -/
theorem C5_witness : get_timepoint_weights mcC5w 5 = (1, 2, 5/6, 1/6) := by
  have hs : mcC5w.timepoints.Sorted (· < ·) := by
    simp [mcC5w, List.sorted_cons]
    norm_num
  have h := (C5_locate_clamps mcC5w 5 hs (by simp [mcC5w])).2.2.2 1
    (by simp [mcC5w]) (by norm_num [mcC5w]) (by norm_num [mcC5w])
  norm_num [mcC5w] at h
  convert h using 2

lemma headD_eq_getD (l : List ℚ) (h : l ≠ []) : l.headD 0 = l.getD 0 0 := by
  cases l with
  | nil => exact absurd rfl h
  | cons a m => simp

lemma getLastD_eq_getD (l : List ℚ) (h : l ≠ []) (d : ℚ) :
    l.getLastD d = l.getD (l.length - 1) 0 := by
  induction l generalizing d with
  | nil => exact absurd rfl h
  | cons a m ih =>
    cases m with
    | nil => simp
    | cons b m' =>
      rw [List.getLastD_cons, ih (by simp) a]
      have hlen : (a :: b :: m').length - 1 = m'.length + 1 := by simp
      have hlen' : (b :: m').length - 1 = m'.length := by simp
      rw [hlen, hlen', List.getD_cons_succ]

lemma sorted_getD_mono (ys : List ℚ) (hy : ys.Sorted (· ≤ ·)) {i j : ℕ}
    (hij : i ≤ j) (hj : j < ys.length) : ys.getD i 0 ≤ ys.getD j 0 := by
  rcases Nat.lt_or_ge i j with hlt | hge
  · rw [List.getD_eq_getElem ys 0 (lt_trans hlt hj), List.getD_eq_getElem ys 0 hj]
    exact List.pairwise_iff_getElem.mp hy i j _ _ hlt
  · have : i = j := le_antisymm hij hge
    rw [this]

/-- Position of the `np.interp` search count within a nondecreasing grid: the
first `count` grid values are ≤ q and all later ones are > q. -/
lemma sorted_countP_upto (xs : List ℚ) (hs : xs.Sorted (· ≤ ·)) (q : ℚ) :
    (∀ i, i < interpCount xs q → xs.getD i 0 ≤ q) ∧
    (∀ i, interpCount xs q ≤ i → i < xs.length →
      q < xs.getD i 0) := by
  unfold interpCount
  induction xs with
  | nil => exact ⟨fun i hi => by simp at hi, fun i _ hi => by simp at hi⟩
  | cons a l ih =>
    have hal : ∀ b ∈ l, a ≤ b := (List.sorted_cons.mp hs).1
    have ihl := ih (List.sorted_cons.mp hs).2
    by_cases ha : a ≤ q
    · rw [List.countP_cons_of_pos _ _ (by simp [ha])]
      constructor
      · intro i hi
        cases i with
        | zero => simpa using ha
        | succ i' =>
          rw [List.getD_cons_succ]
          exact ihl.1 i' (by omega)
      · intro i hcnt hi
        cases i with
        | zero => omega
        | succ i' =>
          rw [List.getD_cons_succ]
          exact ihl.2 i' (by omega) (by simpa using hi)
    · have hq : q < a := lt_of_not_le ha
      have hzero : l.countP (fun x => decide (x ≤ q)) = 0 :=
        List.countP_eq_zero.mpr fun b hb => by
          simp only [decide_eq_true_eq]
          exact not_le.mpr (lt_of_lt_of_le hq (hal b hb))
      rw [List.countP_cons_of_neg _ _ (by simp [ha]), hzero]
      refine ⟨fun i hi => by omega, fun i _ hi => ?_⟩
      cases i with
      | zero => simpa using hq
      | succ i' =>
        rw [List.getD_cons_succ]
        have hmem : l.getD i' 0 ∈ l := getD_mem_of_lt (by simpa using hi)
        exact lt_of_lt_of_le hq (hal _ hmem)

lemma countP_le_mono_q (xs : List ℚ) {q q' : ℚ} (h : q ≤ q') :
    interpCount xs q ≤ interpCount xs q' :=
  List.countP_mono_left fun x _ hx => by
    simp only [decide_eq_true_eq] at hx ⊢
    exact le_trans hx h

lemma interpCount_le_length (xs : List ℚ) (q : ℚ) : interpCount xs q ≤ xs.length :=
  List.countP_le_length _

/-- Within an interior segment, the `np.interp` value lies between the two
neighbouring grid values. -/
lemma npInterp_between (xs ys : List ℚ) (q : ℚ)
    (hxs : xs.Sorted (· ≤ ·)) (hy : ys.Sorted (· ≤ ·)) (hlen : xs.length = ys.length)
    (hj0 : interpCount xs q ≠ 0) (hjn : interpCount xs q ≠ xs.length) :
    ys.getD (interpCount xs q - 1) 0 ≤ npInterp xs ys q ∧
      npInterp xs ys q ≤ ys.getD (interpCount xs q) 0 := by
  have hjlt : interpCount xs q < xs.length :=
    lt_of_le_of_ne (interpCount_le_length xs q) hjn
  have hy_step : ys.getD (interpCount xs q - 1) 0 ≤ ys.getD (interpCount xs q) 0 :=
    sorted_getD_mono ys hy (by omega) (by omega)
  simp only [npInterp]
  rw [if_neg hj0, if_neg hjn]
  by_cases hexact : xs.getD (interpCount xs q - 1) 0 = q
  · rw [if_pos hexact]
    exact ⟨le_refl _, hy_step⟩
  · rw [if_neg hexact]
    have hx1 : xs.getD (interpCount xs q - 1) 0 ≤ q :=
      (sorted_countP_upto xs hxs q).1 _ (by omega)
    have hxlt : xs.getD (interpCount xs q - 1) 0 < q := lt_of_le_of_ne hx1 hexact
    have hx2 : q < xs.getD (interpCount xs q) 0 :=
      (sorted_countP_upto xs hxs q).2 _ (le_refl _) hjlt
    have hdx : 0 < xs.getD (interpCount xs q) 0 - xs.getD (interpCount xs q - 1) 0 := by
      linarith
    have hdy : 0 ≤ ys.getD (interpCount xs q) 0 - ys.getD (interpCount xs q - 1) 0 := by
      linarith
    have hslope : 0 ≤ (ys.getD (interpCount xs q) 0 - ys.getD (interpCount xs q - 1) 0) /
        (xs.getD (interpCount xs q) 0 - xs.getD (interpCount xs q - 1) 0) :=
      div_nonneg hdy (le_of_lt hdx)
    constructor
    · have h0 : 0 ≤ (ys.getD (interpCount xs q) 0 - ys.getD (interpCount xs q - 1) 0) /
          (xs.getD (interpCount xs q) 0 - xs.getD (interpCount xs q - 1) 0) *
          (q - xs.getD (interpCount xs q - 1) 0) :=
        mul_nonneg hslope (by linarith)
      linarith
    · have h1 : (ys.getD (interpCount xs q) 0 - ys.getD (interpCount xs q - 1) 0) /
          (xs.getD (interpCount xs q) 0 - xs.getD (interpCount xs q - 1) 0) *
          (q - xs.getD (interpCount xs q - 1) 0) ≤
          (ys.getD (interpCount xs q) 0 - ys.getD (interpCount xs q - 1) 0) /
          (xs.getD (interpCount xs q) 0 - xs.getD (interpCount xs q - 1) 0) *
          (xs.getD (interpCount xs q) 0 - xs.getD (interpCount xs q - 1) 0) :=
        mul_le_mul_of_nonneg_left (by linarith) hslope
      have h2 : (ys.getD (interpCount xs q) 0 - ys.getD (interpCount xs q - 1) 0) /
          (xs.getD (interpCount xs q) 0 - xs.getD (interpCount xs q - 1) 0) *
          (xs.getD (interpCount xs q) 0 - xs.getD (interpCount xs q - 1) 0) =
          ys.getD (interpCount xs q) 0 - ys.getD (interpCount xs q - 1) 0 :=
        div_mul_cancel₀ _ (ne_of_gt hdx)
      linarith

/-- Monotonicity of the `np.interp` PPF in the query quantile, over a
nondecreasing grid and nondecreasing values. -/
lemma npInterp_mono (xs ys : List ℚ)
    (hxs : xs.Sorted (· ≤ ·)) (hy : ys.Sorted (· ≤ ·)) (hlen : xs.length = ys.length)
    {q q' : ℚ} (hq : q ≤ q') : npInterp xs ys q ≤ npInterp xs ys q' := by
  by_cases hxe : xs = []
  · subst hxe
    simp [npInterp, interpCount]
  · have hxlen : 0 < xs.length := List.length_pos.mpr hxe
    have hyne : ys ≠ [] := by
      intro h
      rw [h] at hlen
      simp only [List.length_nil] at hlen
      omega
    have hjj : interpCount xs q ≤ interpCount xs q' := countP_le_mono_q xs hq
    by_cases hj0 : interpCount xs q = 0
    · have hv : npInterp xs ys q = ys.getD 0 0 := by
        simp only [npInterp]
        rw [if_pos hj0, headD_eq_getD ys hyne]
      rw [hv]
      by_cases hj'0 : interpCount xs q' = 0
      · simp only [npInterp]
        rw [if_pos hj'0, headD_eq_getD ys hyne]
      · by_cases hj'n : interpCount xs q' = xs.length
        · have hv' : npInterp xs ys q' = ys.getD (ys.length - 1) 0 := by
            simp only [npInterp]
            rw [if_neg hj'0, if_pos hj'n, getLastD_eq_getD ys hyne]
          rw [hv']
          exact sorted_getD_mono ys hy (by omega) (by omega)
        · have hlo' := (npInterp_between xs ys q' hxs hy hlen hj'0 hj'n).1
          exact le_trans (sorted_getD_mono ys hy (Nat.zero_le _)
            (by have := interpCount_le_length xs q'; omega)) hlo'
    · by_cases hjn : interpCount xs q = xs.length
      · have hj'n : interpCount xs q' = xs.length :=
          le_antisymm (interpCount_le_length xs q') (hjn ▸ hjj)
        simp only [npInterp]
        rw [if_neg hj0, if_pos hjn, if_neg (by omega : ¬ interpCount xs q' = 0),
          if_pos hj'n]
      · obtain ⟨hlo, hhi⟩ := npInterp_between xs ys q hxs hy hlen hj0 hjn
        have hjlt : interpCount xs q < xs.length :=
          lt_of_le_of_ne (interpCount_le_length xs q) hjn
        by_cases hj'n : interpCount xs q' = xs.length
        · have hv' : npInterp xs ys q' = ys.getD (ys.length - 1) 0 := by
            simp only [npInterp]
            rw [if_neg (by omega : interpCount xs q' ≠ 0), if_pos hj'n,
              getLastD_eq_getD ys hyne]
          rw [hv']
          exact le_trans hhi (sorted_getD_mono ys hy (by omega) (by omega))
        · have hj'0 : interpCount xs q' ≠ 0 := by omega
          obtain ⟨hlo', hhi'⟩ := npInterp_between xs ys q' hxs hy hlen hj'0 hj'n
          rcases lt_or_eq_of_le hjj with hlt | heq
          · exact le_trans hhi (le_trans (sorted_getD_mono ys hy (by omega)
              (by have := interpCount_le_length xs q'; omega)) hlo')
          · -- same segment: compare the two linear values directly
            by_cases hexact : xs.getD (interpCount xs q - 1) 0 = q
            · have hv : npInterp xs ys q = ys.getD (interpCount xs q - 1) 0 := by
                simp only [npInterp]
                rw [if_neg hj0, if_neg hjn, if_pos hexact]
              rw [hv, heq]
              exact hlo'
            · have hx1 : xs.getD (interpCount xs q - 1) 0 ≤ q :=
                (sorted_countP_upto xs hxs q).1 _ (by omega)
              have hxlt : xs.getD (interpCount xs q - 1) 0 < q :=
                lt_of_le_of_ne hx1 hexact
              have hexact' : xs.getD (interpCount xs q' - 1) 0 ≠ q' := by
                rw [← heq]
                intro h
                rw [h] at hxlt
                linarith
              have hx2' : q' < xs.getD (interpCount xs q') 0 :=
                (sorted_countP_upto xs hxs q').2 _ (le_refl _)
                  (lt_of_le_of_ne (interpCount_le_length xs q') hj'n)
              have hv : npInterp xs ys q = ys.getD (interpCount xs q - 1) 0 +
                  (ys.getD (interpCount xs q) 0 - ys.getD (interpCount xs q - 1) 0) /
                  (xs.getD (interpCount xs q) 0 - xs.getD (interpCount xs q - 1) 0) *
                  (q - xs.getD (interpCount xs q - 1) 0) := by
                simp only [npInterp]
                rw [if_neg hj0, if_neg hjn, if_neg hexact]
              have hv' : npInterp xs ys q' = ys.getD (interpCount xs q - 1) 0 +
                  (ys.getD (interpCount xs q) 0 - ys.getD (interpCount xs q - 1) 0) /
                  (xs.getD (interpCount xs q) 0 - xs.getD (interpCount xs q - 1) 0) *
                  (q' - xs.getD (interpCount xs q - 1) 0) := by
                simp only [npInterp]
                rw [if_neg hj'0, if_neg hj'n, if_neg hexact', ← heq]
              have hx2 : q < xs.getD (interpCount xs q) 0 := by
                rw [heq] at hjn ⊢
                exact lt_of_le_of_lt hq hx2'
              have hdx : 0 < xs.getD (interpCount xs q) 0 -
                  xs.getD (interpCount xs q - 1) 0 := by linarith
              have hdy : 0 ≤ ys.getD (interpCount xs q) 0 -
                  ys.getD (interpCount xs q - 1) 0 := by
                have := sorted_getD_mono ys hy
                  (by omega : interpCount xs q - 1 ≤ interpCount xs q)
                  (by omega : interpCount xs q < ys.length)
                linarith
              have hslope : 0 ≤ (ys.getD (interpCount xs q) 0 -
                  ys.getD (interpCount xs q - 1) 0) /
                  (xs.getD (interpCount xs q) 0 - xs.getD (interpCount xs q - 1) 0) :=
                div_nonneg hdy (le_of_lt hdx)
              rw [hv, hv']
              have := mul_le_mul_of_nonneg_left
                (by linarith : q - xs.getD (interpCount xs q - 1) 0 ≤
                  q' - xs.getD (interpCount xs q - 1) 0) hslope
              linarith

lemma sorted_position (a b : ℚ) (rest : List ℚ) (hs : (a :: b :: rest).Sorted (· < ·))
    (t : ℚ) :
    t ≤ a ∨
    (a :: b :: rest).getD ((a :: b :: rest).length - 1) 0 ≤ t ∨
    (∃ k, k < (a :: b :: rest).length ∧ (a :: b :: rest).getD k 0 = t) ∨
    (∃ k, k + 1 < (a :: b :: rest).length ∧ (a :: b :: rest).getD k 0 < t ∧
      t < (a :: b :: rest).getD (k+1) 0) := by
  induction rest generalizing a b with
  | nil =>
    rcases le_or_lt t a with h | h
    · exact Or.inl h
    rcases le_or_lt b t with h2 | h2
    · exact Or.inr (Or.inl (by simpa using h2))
    · exact Or.inr (Or.inr (Or.inr ⟨0, by simp, by simpa using h, by simpa using h2⟩))
  | cons c rest' ih =>
    rcases le_or_lt t a with h | h
    · exact Or.inl h
    rcases lt_trichotomy t b with h2 | h2 | h2
    · exact Or.inr (Or.inr (Or.inr ⟨0, by simp, by simpa using h, by simpa using h2⟩))
    · exact Or.inr (Or.inr (Or.inl ⟨1, by simp, by simpa using h2.symm⟩))
    · have hs' : (b :: c :: rest').Sorted (· < ·) := (List.sorted_cons.mp hs).2
      rcases ih b c hs' with h3 | h3 | h3 | h3
      · exact absurd h3 (not_le.mpr h2)
      · refine Or.inr (Or.inl ?_)
        have hlen : (a :: b :: c :: rest').length - 1 = ((b :: c :: rest').length - 1) + 1 := by
          simp
        rw [hlen, List.getD_cons_succ]
        exact h3
      · obtain ⟨k, hk, hkt⟩ := h3
        exact Or.inr (Or.inr (Or.inl ⟨k + 1, by simpa using hk,
          by rwa [List.getD_cons_succ]⟩))
      · obtain ⟨k, hk, hk1, hk2⟩ := h3
        exact Or.inr (Or.inr (Or.inr ⟨k + 1, by simpa using hk,
          by rwa [List.getD_cons_succ], by rwa [List.getD_cons_succ]⟩))

/-- For a well-formed ensemble the two interpolation weights are nonnegative:
the clamp of line 23 means the fractional index is always taken on a genuine
segment of the anchor grid. -/
lemma gtw_weights_nonneg (mc : ModelCombination) (t : ℚ)
    (hs : mc.timepoints.Sorted (· < ·)) (hK : 2 ≤ mc.timepoints.length) :
    0 ≤ (get_timepoint_weights mc t).2.2.1 ∧ 0 ≤ (get_timepoint_weights mc t).2.2.2 := by
  obtain ⟨a, b, rest, hts⟩ := exists_two_cons hK
  rcases sorted_position a b rest (hts ▸ hs) t with h | h | h | h
  · rw [gtw_below mc t hs hK (by rw [hts]; simpa using h)]
    norm_num
  · rw [gtw_above mc t hs hK (by rw [hts]; exact h)]
    norm_num
  · obtain ⟨k, hk, hkt⟩ := h
    rw [gtw_at_anchor mc t k hs hK (by rw [hts]; exact hk) (by rw [hts]; exact hkt)]
    norm_num
  · obtain ⟨k, hk, hk1, hk2⟩ := h
    rw [gtw_interior mc t k hs hK (by rw [hts]; exact hk) (by rw [hts]; exact hk1)
      (by rw [hts]; exact hk2)]
    have hden : (0:ℚ) < mc.timepoints.getD (k+1) 0 - mc.timepoints.getD k 0 := by
      rw [hts]
      linarith
    have hr0 : 0 ≤ (t - mc.timepoints.getD k 0) /
        (mc.timepoints.getD (k+1) 0 - mc.timepoints.getD k 0) := by
      apply div_nonneg _ (le_of_lt hden)
      rw [hts]
      linarith
    have hr1 : (t - mc.timepoints.getD k 0) /
        (mc.timepoints.getD (k+1) 0 - mc.timepoints.getD k 0) ≤ 1 := by
      rw [div_le_one hden, hts]
      linarith
    constructor
    · simp only []
      linarith
    · simpa using hr0

instance : IsTotal (ℚ × ℚ) (fun p q => p.1 ≤ q.1) := ⟨fun a b => le_total a.1 b.1⟩

instance : IsTrans (ℚ × ℚ) (fun p q => p.1 ≤ q.1) := ⟨fun _ _ _ => le_trans⟩

lemma cumsumFrom_length (l : List ℚ) : ∀ acc, (cumsumFrom acc l).length = l.length := by
  induction l with
  | nil => intro acc; rfl
  | cons w ws ih => intro acc; simp [cumsumFrom, ih]

lemma le_of_mem_cumsumFrom (l : List ℚ) (h : ∀ x ∈ l, 0 ≤ x) :
    ∀ acc, ∀ y ∈ cumsumFrom acc l, acc ≤ y := by
  induction l with
  | nil => intro acc y hy; simp [cumsumFrom] at hy
  | cons w ws ih =>
    intro acc y hy
    have hw : 0 ≤ w := h w (List.mem_cons_self w ws)
    rcases List.mem_cons.mp hy with hy1 | hy1
    · rw [hy1]; linarith
    · have := ih (fun x hx => h x (List.mem_cons_of_mem w hx)) (acc + w) y hy1
      linarith

lemma cumsumFrom_sorted (l : List ℚ) (h : ∀ x ∈ l, 0 ≤ x) :
    ∀ acc, (cumsumFrom acc l).Sorted (· ≤ ·) := by
  induction l with
  | nil => intro acc; simp [cumsumFrom]
  | cons w ws ih =>
    intro acc
    rw [cumsumFrom, List.sorted_cons]
    refine ⟨fun y hy => ?_, ih (fun x hx => h x (List.mem_cons_of_mem w hx)) (acc + w)⟩
    exact le_of_mem_cumsumFrom ws (fun x hx => h x (List.mem_cons_of_mem w hx)) (acc + w) y hy

/-- Every pooled sample mass is nonnegative for a well-formed ensemble. -/
lemma pooled_snd_nonneg (mc : ModelCombination) (f_dict : List (String × ℚ)) (t : ℚ)
    (hs : mc.timepoints.Sorted (· < ·)) (hK : 2 ≤ mc.timepoints.length) :
    ∀ p ∈ pooledSamples mc f_dict t, 0 ≤ p.2 := by
  intro p hp
  obtain ⟨hw1, hw2⟩ := gtw_weights_nonneg mc t hs hK
  simp only [pooledSamples] at hp
  rcases List.mem_append.mp hp with hp1 | hp1 <;>
    obtain ⟨w, _, hwp⟩ := List.mem_map.mp hp1 <;>
    rw [← hwp] <;>
    exact div_nonneg (by assumption) (by positivity)

/-- Total pooled mass equals wt1 + wt2 = 1 whenever both bracketing ensembles
are nonempty. -/
lemma sorted_snd_sum_one (mc : ModelCombination) (f_dict : List (String × ℚ)) (t : ℚ)
    (hbad : ¬ combineBad mc f_dict t) :
    ((sortedSamples mc f_dict t).map Prod.snd).sum = 1 := by
  simp only [combineBad] at hbad
  push_neg at hbad
  obtain ⟨hne1, hne2, _⟩ := hbad
  have hperm : ((sortedSamples mc f_dict t).map Prod.snd).sum =
      ((pooledSamples mc f_dict t).map Prod.snd).sum :=
    ((List.perm_insertionSort _ _).map Prod.snd).sum_eq
  rw [hperm]
  simp only [pooledSamples, List.map_append, List.map_map, List.sum_append]
  have hc : ∀ (d : List (List ℚ)) (c : ℚ),
      (d.map (Prod.snd ∘ (fun w =>
        (drawNum w (buildFV mc.models f_dict).2 (buildFV mc.models f_dict).1 /
          drawDen w (buildFV mc.models f_dict).2, c)))).sum = d.length * c :=
    fun d c => sum_map_const_rat d c
  rw [hc, hc]
  have hn1 : ((mc.posterior_dist.getD (get_timepoint_weights mc t).1 []).length : ℚ) ≠ 0 := by
    have := List.length_pos.mpr hne1
    positivity
  have hn2 : ((mc.posterior_dist.getD (get_timepoint_weights mc t).2.1 []).length : ℚ) ≠ 0 := by
    have := List.length_pos.mpr hne2
    positivity
  rw [mul_comm (((mc.posterior_dist.getD (get_timepoint_weights mc t).1 []).length : ℚ)) _,
    mul_comm (((mc.posterior_dist.getD (get_timepoint_weights mc t).2.1 []).length : ℚ)) _,
    div_mul_cancel₀ _ hn1, div_mul_cancel₀ _ hn2]
  exact gtw_weights_sum_one mc t

/-- The CDF grid fed to the PPF is nondecreasing, the sorted sample values are
nondecreasing, and the two lists have equal length. -/
lemma combine_grids_sorted (mc : ModelCombination) (f_dict : List (String × ℚ)) (t : ℚ)
    (hs : mc.timepoints.Sorted (· < ·)) (hK : 2 ≤ mc.timepoints.length)
    (hbad : ¬ combineBad mc f_dict t) :
    (combineXs mc f_dict t).Sorted (· ≤ ·) ∧
      ((sortedSamples mc f_dict t).map Prod.fst).Sorted (· ≤ ·) ∧
      (combineXs mc f_dict t).length =
        ((sortedSamples mc f_dict t).map Prod.fst).length := by
  have hws : ∀ x ∈ (sortedSamples mc f_dict t).map Prod.snd, 0 ≤ x := by
    intro x hx
    obtain ⟨p, hp, hpx⟩ := List.mem_map.mp hx
    rw [← hpx]
    exact pooled_snd_nonneg mc f_dict t hs hK p
      ((List.perm_insertionSort _ _).mem_iff.mp hp)
  refine ⟨?_, ?_, ?_⟩
  · simp only [combineXs]
    have hsorted : (cumsum ((sortedSamples mc f_dict t).map Prod.snd)).Sorted (· ≤ ·) :=
      cumsumFrom_sorted _ hws 0
    have h1 : (0:ℚ) < ((sortedSamples mc f_dict t).map Prod.snd).sum := by
      rw [sorted_snd_sum_one mc f_dict t hbad]
      norm_num
    exact List.Pairwise.map _ (fun a b hab => by
      exact (div_le_div_iff_of_pos_right h1).mpr hab) hsorted
  · have hsorted := List.sorted_insertionSort (fun p q : ℚ × ℚ => p.1 ≤ q.1)
      (pooledSamples mc f_dict t)
    exact List.Pairwise.map _ (fun a b hab => hab) hsorted
  · simp only [combineXs, List.length_map, cumsum, cumsumFrom_length]

/-- **C6**: for a fixed well-formed ensemble, quote map and query time, and any
two significance levels 0 < a ≤ a' < 1 at which the query returns intervals,
the credible interval at the larger level a' is contained in the interval at
level a: a larger alpha never produces a wider interval. -/
theorem C6_interval_nesting (mc : ModelCombination) (f_dict : List (String × ℚ))
    (t a a' e l u e' l' u' : ℚ)
    (hs : mc.timepoints.Sorted (· < ·)) (hK : 2 ≤ mc.timepoints.length)
    (ha : 0 < a) (haa : a ≤ a') (ha' : a' < 1)
    (h1 : combine_forecasts mc f_dict t a = some (e, l, u))
    (h2 : combine_forecasts mc f_dict t a' = some (e', l', u')) :
    l ≤ l' ∧ l' ≤ u' ∧ u' ≤ u := by
  obtain ⟨hbad, _, hl, hu⟩ := combine_forecasts_eq_some mc f_dict t a e l u h1
  obtain ⟨_, _, hl', hu'⟩ := combine_forecasts_eq_some mc f_dict t a' e' l' u' h2
  obtain ⟨hxs, hys, hlen⟩ := combine_grids_sorted mc f_dict t hs hK hbad
  subst hl hu hl' hu'
  refine ⟨?_, ?_, ?_⟩
  · exact npInterp_mono _ _ hxs hys hlen (by linarith)
  · exact npInterp_mono _ _ hxs hys hlen (by linarith)
  · exact npInterp_mono _ _ hxs hys hlen (by linarith)

set_option maxHeartbeats 1000000 in
/-- Witness for `C6_interval_nesting`: for the C1 ensemble the 80% interval
(alpha = 0.2) is contained in the 95% interval (alpha = 0.05). -/
theorem C6_witness :
    (33/50 : ℚ) ≤ 33/50 ∧ (33/50 : ℚ) ≤ 18/25 ∧ (18/25 : ℚ) ≤ 18/25 := by
  have hsorted : mcC1.timepoints.Sorted (· < ·) := by
    simp [mcC1, List.sorted_cons]
    norm_num
  have h1 : combine_forecasts mcC1 [("A", 3/5), ("B", 4/5)] (-4) (1/20) =
      some (69/100, 33/50, 18/25) := by
    rw [combine_forecasts, if_neg mcC1_not_bad, mcC1_estimate, combineLB, combineUB,
      mcC1_xs, mcC1_ys]
    norm_num [npInterp, interpCount, List.replicate, List.countP, List.countP.go]
  have h2 : combine_forecasts mcC1 [("A", 3/5), ("B", 4/5)] (-4) (1/5) =
      some (69/100, 33/50, 18/25) := by
    rw [combine_forecasts, if_neg mcC1_not_bad, mcC1_estimate, combineLB, combineUB,
      mcC1_xs, mcC1_ys]
    norm_num [npInterp, interpCount, List.replicate, List.countP, List.countP.go]
  exact C6_interval_nesting mcC1 [("A", 3/5), ("B", 4/5)] (-4) (1/20) (1/5)
    (69/100) (33/50) (18/25) (69/100) (33/50) (18/25) hsorted (by simp [mcC1])
    (by norm_num) (by norm_num) (by norm_num) h1 h2

lemma buildFV_fst_bounds (models : List String) (l : List (String × ℚ))
    (h : ∀ p ∈ l, 0 ≤ p.2 ∧ p.2 ≤ 1) :
    ∀ x ∈ (buildFV models l).1, 0 ≤ x ∧ x ≤ 1 := by
  unfold buildFV
  generalize hinit : (List.replicate models.length (0:ℚ), List.replicate models.length (0:ℚ)) = init
  have h1 : ∀ x ∈ init.1, 0 ≤ x ∧ x ≤ 1 := by
    rw [← hinit]
    intro x hx
    rw [List.eq_of_mem_replicate hx]
    norm_num
  clear hinit
  induction l generalizing init with
  | nil => exact h1
  | cons p l ih =>
    rw [List.foldl_cons]
    refine ih (fun r hr => h r (List.mem_cons_of_mem p hr)) _ ?_
    by_cases hp : p.1 ∈ models
    · rw [if_pos hp]
      intro x hx
      rcases List.mem_or_eq_of_mem_set hx with hx1 | hx1
      · exact h1 x hx1
      · rw [hx1]
        exact h p (List.mem_cons_self p l)
    · rw [if_neg hp]
      exact h1

lemma buildFV_snd_bounds (models : List String) (l : List (String × ℚ)) :
    ∀ x ∈ (buildFV models l).2, 0 ≤ x ∧ x ≤ 1 := by
  unfold buildFV
  generalize hinit : (List.replicate models.length (0:ℚ), List.replicate models.length (0:ℚ)) = init
  have h1 : ∀ x ∈ init.2, 0 ≤ x ∧ x ≤ 1 := by
    rw [← hinit]
    intro x hx
    rw [List.eq_of_mem_replicate hx]
    norm_num
  clear hinit
  induction l generalizing init with
  | nil => exact h1
  | cons p l ih =>
    rw [List.foldl_cons]
    refine ih _ ?_
    by_cases hp : p.1 ∈ models
    · rw [if_pos hp]
      intro x hx
      rcases List.mem_or_eq_of_mem_set hx with hx1 | hx1
      · exact h1 x hx1
      · rw [hx1]
        norm_num
    · rw [if_neg hp]
      exact h1

lemma drawDen_nonneg (w v : List ℚ) (hw : ∀ x ∈ w, 0 ≤ x) (hv : ∀ x ∈ v, 0 ≤ x) :
    0 ≤ drawDen w v := by
  unfold drawDen
  induction w generalizing v with
  | nil => simp
  | cons a w' ih =>
    cases v with
    | nil => simp
    | cons b v' =>
      rw [List.zipWith_cons_cons, List.sum_cons]
      have ha : 0 ≤ a := hw a (by simp)
      have hb : 0 ≤ b := hv b (by simp)
      have := ih v' (fun x hx => hw x (List.mem_cons_of_mem a hx))
        (fun x hx => hv x (List.mem_cons_of_mem b hx))
      have hab : 0 ≤ a * b := mul_nonneg ha hb
      linarith

lemma drawNum_nonneg (w v f : List ℚ) (hw : ∀ x ∈ w, 0 ≤ x) (hv : ∀ x ∈ v, 0 ≤ x)
    (hf : ∀ x ∈ f, 0 ≤ x) : 0 ≤ drawNum w v f := by
  unfold drawNum
  induction w generalizing v f with
  | nil => simp
  | cons a w' ih =>
    cases v with
    | nil => simp
    | cons b v' =>
      cases f with
      | nil => simp
      | cons c f' =>
        rw [List.zipWith_cons_cons, List.zipWith_cons_cons, List.sum_cons]
        have ha : 0 ≤ a := hw a (by simp)
        have hb : 0 ≤ b := hv b (by simp)
        have hc : 0 ≤ c := hf c (by simp)
        have := ih v' f' (fun x hx => hw x (List.mem_cons_of_mem a hx))
          (fun x hx => hv x (List.mem_cons_of_mem b hx))
          (fun x hx => hf x (List.mem_cons_of_mem c hx))
        have habc : 0 ≤ a * b * c := mul_nonneg (mul_nonneg ha hb) hc
        linarith

lemma drawNum_le_drawDen (w v f : List ℚ) (hw : ∀ x ∈ w, 0 ≤ x)
    (hv : ∀ x ∈ v, 0 ≤ x) (hf : ∀ x ∈ f, x ≤ 1) :
    drawNum w v f ≤ drawDen w v := by
  unfold drawNum drawDen
  induction w generalizing v f with
  | nil => simp
  | cons a w' ih =>
    cases v with
    | nil => simp
    | cons b v' =>
      cases f with
      | nil =>
        simp only [List.zipWith_nil_right, List.sum_nil]
        exact drawDen_nonneg (a :: w') (b :: v') hw hv
      | cons c f' =>
        rw [List.zipWith_cons_cons, List.zipWith_cons_cons, List.sum_cons, List.sum_cons]
        have ha : 0 ≤ a := hw a (by simp)
        have hb : 0 ≤ b := hv b (by simp)
        have hc : c ≤ 1 := hf c (by simp)
        have hterm : a * b * c ≤ a * b :=
          mul_le_of_le_one_right (mul_nonneg ha hb) hc
        have := ih v' f' (fun x hx => hw x (List.mem_cons_of_mem a hx))
          (fun x hx => hv x (List.mem_cons_of_mem b hx))
          (fun x hx => hf x (List.mem_cons_of_mem c hx))
        linarith

/-- Under nonnegative draws and quotes in the unit interval, every pooled
sample value lies in the unit interval. -/
lemma sorted_fst_bounds (mc : ModelCombination) (f_dict : List (String × ℚ)) (t : ℚ)
    (hq : ∀ p ∈ f_dict, 0 ≤ p.2 ∧ p.2 ≤ 1)
    (hw : ∀ d ∈ mc.posterior_dist, ∀ w ∈ d, ∀ x ∈ w, 0 ≤ x)
    (hbad : ¬ combineBad mc f_dict t) :
    ∀ p ∈ sortedSamples mc f_dict t, 0 ≤ p.1 ∧ p.1 ≤ 1 := by
  simp only [combineBad] at hbad
  push_neg at hbad
  obtain ⟨hne1, hne2, hden⟩ := hbad
  have hdist : ∀ w ∈ mc.posterior_dist.getD (get_timepoint_weights mc t).1 [] ++
      mc.posterior_dist.getD (get_timepoint_weights mc t).2.1 [], ∀ x ∈ w, 0 ≤ x := by
    intro w hw'
    rcases List.mem_append.mp hw' with h1 | h1
    · by_cases hi : (get_timepoint_weights mc t).1 < mc.posterior_dist.length
      · exact hw _ (getD_mem_of_lt hi) w h1
      · rw [List.getD_eq_default _ _ (by omega)] at h1
        simp at h1
    · by_cases hi : (get_timepoint_weights mc t).2.1 < mc.posterior_dist.length
      · exact hw _ (getD_mem_of_lt hi) w h1
      · rw [List.getD_eq_default _ _ (by omega)] at h1
        simp at h1
  have hv := buildFV_snd_bounds mc.models f_dict
  have hf := buildFV_fst_bounds mc.models f_dict hq
  intro p hp
  rw [sortedSamples, (List.perm_insertionSort _ _).mem_iff] at hp
  simp only [pooledSamples] at hp
  have hvalue : ∀ w ∈ mc.posterior_dist.getD (get_timepoint_weights mc t).1 [] ++
      mc.posterior_dist.getD (get_timepoint_weights mc t).2.1 [],
      0 ≤ drawNum w (buildFV mc.models f_dict).2 (buildFV mc.models f_dict).1 /
        drawDen w (buildFV mc.models f_dict).2 ∧
      drawNum w (buildFV mc.models f_dict).2 (buildFV mc.models f_dict).1 /
        drawDen w (buildFV mc.models f_dict).2 ≤ 1 := by
    intro w hwm
    have hwn : ∀ x ∈ w, 0 ≤ x := hdist w hwm
    have hdpos : 0 < drawDen w (buildFV mc.models f_dict).2 :=
      lt_of_le_of_ne (drawDen_nonneg w _ hwn (fun x hx => (hv x hx).1)) (Ne.symm (hden w hwm))
    constructor
    · exact div_nonneg (drawNum_nonneg w _ _ hwn (fun x hx => (hv x hx).1)
        (fun x hx => (hf x hx).1)) (le_of_lt hdpos)
    · exact (div_le_one hdpos).mpr (drawNum_le_drawDen w _ _ hwn
        (fun x hx => (hv x hx).1) (fun x hx => (hf x hx).2))
  rcases List.mem_append.mp hp with hp1 | hp1
  · obtain ⟨w, hwm, hwp⟩ := List.mem_map.mp hp1
    rw [← hwp]
    exact hvalue w (List.mem_append_left _ hwm)
  · obtain ⟨w, hwm, hwp⟩ := List.mem_map.mp hp1
    rw [← hwp]
    exact hvalue w (List.mem_append_right _ hwm)

/-- **C7, amended**: for a well-formed ensemble, when all quoted probabilities
lie in [0, 1], every posterior draw is entrywise nonnegative and alpha ≤ 1, a
successful combination query has its point estimate in [0, 1] and
lower ≤ upper; the point estimate, however, need not lie inside
[lower, upper] (see `C7_counterexample`). -/
theorem C7_estimate_bounds (mc : ModelCombination) (f_dict : List (String × ℚ))
    (t alpha e l u : ℚ)
    (hs : mc.timepoints.Sorted (· < ·)) (hK : 2 ≤ mc.timepoints.length)
    (hq : ∀ p ∈ f_dict, 0 ≤ p.2 ∧ p.2 ≤ 1)
    (hw : ∀ d ∈ mc.posterior_dist, ∀ w ∈ d, ∀ x ∈ w, 0 ≤ x)
    (halpha : alpha ≤ 1)
    (hres : combine_forecasts mc f_dict t alpha = some (e, l, u)) :
    0 ≤ e ∧ e ≤ 1 ∧ l ≤ u := by
  obtain ⟨hbad, he, hl, hu⟩ := combine_forecasts_eq_some mc f_dict t alpha e l u hres
  have hfst := sorted_fst_bounds mc f_dict t hq hw hbad
  have hsnd : ∀ p ∈ sortedSamples mc f_dict t, 0 ≤ p.2 := fun p hp =>
    pooled_snd_nonneg mc f_dict t hs hK p ((List.perm_insertionSort _ _).mem_iff.mp hp)
  have htotal := sorted_snd_sum_one mc f_dict t hbad
  have hsum0 : 0 ≤ ((sortedSamples mc f_dict t).map (fun p => p.1 * p.2)).sum := by
    apply List.sum_nonneg
    intro x hx
    obtain ⟨p, hp, hpx⟩ := List.mem_map.mp hx
    rw [← hpx]
    exact mul_nonneg (hfst p hp).1 (hsnd p hp)
  have hsum1 : ((sortedSamples mc f_dict t).map (fun p => p.1 * p.2)).sum ≤
      ((sortedSamples mc f_dict t).map Prod.snd).sum := by
    apply List.sum_le_sum
    intro p hp
    exact mul_le_of_le_one_left (hsnd p hp) (hfst p hp).2
  constructor
  · rw [he]
    simp only [combineEstimate]
    exact div_nonneg hsum0 (by rw [htotal]; norm_num)
  constructor
  · rw [he]
    simp only [combineEstimate]
    rw [div_le_one (by rw [htotal]; norm_num)]
    exact hsum1
  · obtain ⟨hxs, hys, hlen⟩ := combine_grids_sorted mc f_dict t hs hK hbad
    rw [hl, hu]
    exact npInterp_mono _ _ hxs hys hlen (by linarith)

/-- Ensemble whose posterior is highly skewed: nine draws put all weight on A
and one draw puts all weight on B, identically at both anchors. -/
def mcC7cex : ModelCombination :=
  ⟨[-6, -2], ["A", "B"],
    [List.replicate 9 [1, 0] ++ [[0, 1]], List.replicate 9 [1, 0] ++ [[0, 1]]]⟩

lemma mcC7cex_fv :
    buildFV mcC7cex.models [("A", 0), ("B", 1)] = ([0, 1], [1, 1]) := by
  simp [buildFV, mcC7cex, List.findIdx, List.findIdx.go, List.replicate, List.set]

lemma mcC7cex_gtw : get_timepoint_weights mcC7cex (-4) = (0, 1, 1/2, 1/2) :=
  gtw_anchors62_at4 mcC7cex rfl

lemma mcC7cex_not_bad : ¬ combineBad mcC7cex [("A", 0), ("B", 1)] (-4) := by
  simp only [combineBad, mcC7cex_fv, mcC7cex_gtw]
  norm_num [mcC7cex, drawDen, List.replicate]
  simp

set_option maxHeartbeats 2000000 in
lemma mcC7cex_sorted :
    sortedSamples mcC7cex [("A", 0), ("B", 1)] (-4) =
      List.replicate 18 (0, 1/20) ++ List.replicate 2 (1, 1/20) := by
  have hp : pooledSamples mcC7cex [("A", 0), ("B", 1)] (-4) =
      (List.replicate 9 (0, 1/20) ++ [(1, 1/20)]) ++
        (List.replicate 9 (0, 1/20) ++ [(1, 1/20)]) := by
    simp only [pooledSamples, mcC7cex_fv, mcC7cex_gtw]
    norm_num [mcC7cex, drawNum, drawDen, List.replicate]
  rw [sortedSamples, hp]
  norm_num [List.replicate, List.insertionSort, List.orderedInsert]

set_option maxHeartbeats 2000000 in
/-- **C7, counterexample**: with quotes A = 0, B = 1 (both in [0, 1]), a
recognised forecaster present, and nonnegative posterior draws giving the
present subset positive weight, the query at alpha = 0.2 returns point
estimate 1/10 with credible bounds [0, 0]: the point estimate exceeds the
upper bound, refuting "lower ≤ estimate ≤ upper". -/
theorem C7_counterexample :
    combine_forecasts mcC7cex [("A", 0), ("B", 1)] (-4) (1/5) =
      some (1/10, 0, 0) ∧ ¬ ((1/10 : ℚ) ≤ 0) := by
  constructor
  · rw [combine_forecasts, if_neg mcC7cex_not_bad, combineLB, combineUB]
    have hest : combineEstimate mcC7cex [("A", 0), ("B", 1)] (-4) = 1/10 := by
      simp only [combineEstimate, mcC7cex_sorted]
      norm_num [List.replicate]
    have hxs : combineXs mcC7cex [("A", 0), ("B", 1)] (-4) =
        [1/20, 1/10, 3/20, 1/5, 1/4, 3/10, 7/20, 2/5, 9/20, 1/2, 11/20, 3/5,
         13/20, 7/10, 3/4, 4/5, 17/20, 9/10, 19/20, 1] := by
      simp only [combineXs, mcC7cex_sorted]
      norm_num [List.replicate, cumsum, cumsumFrom]
    have hys : (sortedSamples mcC7cex [("A", 0), ("B", 1)] (-4)).map Prod.fst =
        List.replicate 18 0 ++ List.replicate 2 1 := by
      rw [mcC7cex_sorted]
      norm_num [List.replicate]
    rw [hest, hxs, hys]
    norm_num [npInterp, interpCount, List.replicate, List.countP, List.countP.go]
  · norm_num

set_option maxHeartbeats 1000000 in
/-- Witness for `C7_estimate_bounds` at the C1 scenario: estimate 0.69 lies in
[0, 1] and the bounds are ordered. -/
theorem C7_witness :
    (0:ℚ) ≤ 69/100 ∧ (69/100:ℚ) ≤ 1 ∧ (33/50:ℚ) ≤ 18/25 := by
  have hsorted : mcC1.timepoints.Sorted (· < ·) := by
    simp [mcC1, List.sorted_cons]
    norm_num
  have h1 : combine_forecasts mcC1 [("A", 3/5), ("B", 4/5)] (-4) (1/20) =
      some (69/100, 33/50, 18/25) := by
    rw [combine_forecasts, if_neg mcC1_not_bad, mcC1_estimate, combineLB, combineUB,
      mcC1_xs, mcC1_ys]
    norm_num [npInterp, interpCount, List.replicate, List.countP, List.countP.go]
  refine C7_estimate_bounds mcC1 [("A", 3/5), ("B", 4/5)] (-4) (1/20)
    (69/100) (33/50) (18/25) hsorted (by simp [mcC1]) ?_ ?_ (by norm_num) h1
  · intro p hp
    rcases List.mem_cons.mp hp with h | h
    · rw [h]; norm_num
    · rcases List.mem_cons.mp h with h' | h'
      · rw [h']; norm_num
      · simp at h'
  · intro d hd w hwm x hx
    simp only [mcC1] at hd
    rcases List.mem_cons.mp hd with h | h
    · rw [h] at hwm
      rw [List.eq_of_mem_replicate hwm] at hx
      rcases List.mem_cons.mp hx with h' | h'
      · rw [h']; norm_num
      · rcases List.mem_cons.mp h' with h'' | h''
        · rw [h'']; norm_num
        · simp at h''
    · rcases List.mem_cons.mp h with h1 | h1
      · rw [h1] at hwm
        rw [List.eq_of_mem_replicate hwm] at hx
        rcases List.mem_cons.mp hx with h' | h'
        · rw [h']; norm_num
        · rcases List.mem_cons.mp h' with h'' | h''
          · rw [h'']; norm_num
          · simp at h''
      · simp at h1

/-- One row of the outcome dataframe consumed by `preprocess_outcome_data`
(estimate_weights.py lines 8-73).  Timestamps are rationals in minutes,
`game_date` an ordinal day number, `moneyline_home_outcome` is 1 for a home
win and 0 otherwise. -/
structure OutcomeRow where
  game_date : ℤ
  home_team : String
  away_team : String
  game_datetime : ℚ
  observation_datetime : ℚ
  sportsbook_name : String
  moneyline_home_prob : ℚ
  moneyline_home_outcome : ℚ
deriving DecidableEq

/-- `dt.floor('10min')` (line 30) on minutes. -/
def floor10 (x : ℚ) : ℚ := 10 * ⌊x / 10⌋

/-- The (game_date, home, away) triple identifying a game (lines 25, 46). -/
def gameKey (r : OutcomeRow) : ℤ × String × String :=
  (r.game_date, r.home_team, r.away_team)

/-- pandas `drop_duplicates()` with the default keep='first'. -/
def dedupFirst {α : Type} [DecidableEq α] : List α → List α
  | [] => []
  | a :: as => a :: (dedupFirst as).filter (fun x => x ≠ a)

/-- Lines 25-27: restrict to the `n_games` most recent distinct games.  The
distinct game triples are sorted by date, `iloc[-n:]` keeps the last n rows
(`iloc[-0:]` is the whole frame), and the minimum date of that tail is the
cutoff.  An empty frame yields a NaN cutoff, against which every comparison is
False. -/
def recentRows (rows : List OutcomeRow) (n_games : ℕ) : List OutcomeRow :=
  let games := dedupFirst (rows.map gameKey)
  let sortedGames := List.insertionSort (fun a b : ℤ × String × String => a.1 ≤ b.1) games
  let tail := if n_games = 0 then sortedGames
    else sortedGames.drop (sortedGames.length - n_games)
  match (tail.map (fun g => g.1)).min? with
  | none => []
  | some cutoff => rows.filter (fun r => decide (cutoff ≤ r.game_date))

/-- Line 34: hours between the (already floored) observation and game start. -/
def hoursRemaining (r : OutcomeRow) : ℚ :=
  (r.observation_datetime - r.game_datetime) / 60

/-- Lines 29-36: floor observation timestamps to 10 minutes, then keep the
rows whose hours_remaining lies in [-hb_max, -hb_min). -/
def windowRows (rows : List OutcomeRow) (hours_before : ℚ × ℚ) : List OutcomeRow :=
  let hb0 := max hours_before.1 hours_before.2
  let hb1 := min hours_before.1 hours_before.2
  (rows.map (fun r => { r with observation_datetime := floor10 r.observation_datetime })).filter
    (fun r => decide (-hb0 ≤ hoursRemaining r ∧ hoursRemaining r < -hb1))

/-- Line 39: keep only rows from the allow-listed sportsbooks. -/
def bookRows (rows : List OutcomeRow) (sportsbooks : List String) : List OutcomeRow :=
  rows.filter (fun r => sportsbooks.contains r.sportsbook_name)

/-- Line 40: `sportsbooks.index(name)` — first index of the row's book in the
allow-list. -/
def sbIndex (sportsbooks : List String) (r : OutcomeRow) : ℕ :=
  sportsbooks.findIdx (fun s => s == r.sportsbook_name)

/-- The sort key of line 41: (game_datetime, home_team, sportsbook_index),
lexicographically. -/
def rowLE (sportsbooks : List String) (a b : OutcomeRow) : Prop :=
  a.game_datetime < b.game_datetime ∨ (a.game_datetime = b.game_datetime ∧
    (a.home_team < b.home_team ∨ (a.home_team = b.home_team ∧
      sbIndex sportsbooks a ≤ sbIndex sportsbooks b)))

instance (sportsbooks : List String) : DecidableRel (rowLE sportsbooks) := by
  unfold rowLE
  intro a b
  exact inferInstance

/-- Line 41: `sort_values(by=['game_datetime','home_team','sportsbook_index'])`. -/
def sortedRows (rows : List OutcomeRow) (sportsbooks : List String) : List OutcomeRow :=
  List.insertionSort (rowLE sportsbooks) rows

/-- The forecast key of lines 46-48: one forecast = one (observation time,
game) pair. -/
def fkey (r : OutcomeRow) : ℚ × ℤ × String × String :=
  (r.observation_datetime, r.game_date, r.home_team, r.away_team)

/-- Lines 46-48: the forecast_index of a row = position of its key in the
keep-first dedup of all keys, in first-appearance order. -/
def fIndex (keys : List (ℚ × ℤ × String × String)) (r : OutcomeRow) : ℕ :=
  keys.findIdx (fun k => k == fkey r)

/-- Rows surviving up to and including the sort of line 41. -/
def stageRows (rows : List OutcomeRow) (hours_before : ℚ × ℚ) (n_games : ℕ)
    (sportsbooks : List String) : List OutcomeRow :=
  sortedRows (bookRows (windowRows (recentRows rows n_games) hours_before) sportsbooks)
    sportsbooks

/-- The distinct forecast keys, in first-appearance order (line 46-47). -/
def stageKeys (rows : List OutcomeRow) (hours_before : ℚ × ℚ) (n_games : ℕ)
    (sportsbooks : List String) : List (ℚ × ℤ × String × String) :=
  dedupFirst ((stageRows rows hours_before n_games sportsbooks).map fkey)

/-- Line 52: `drop_duplicates(subset=['forecast_index','sportsbook_index'],
keep=False)` — every row whose (forecast, book) pair occurs more than once is
dropped. -/
def dedupedRows (rows : List OutcomeRow) (hours_before : ℚ × ℚ) (n_games : ℕ)
    (sportsbooks : List String) : List OutcomeRow :=
  let s := stageRows rows hours_before n_games sportsbooks
  let keys := stageKeys rows hours_before n_games sportsbooks
  s.filter (fun r => s.countP (fun r2 =>
    (fIndex keys r2 == fIndex keys r) && (sbIndex sportsbooks r2 == sbIndex sportsbooks r)) == 1)

/-- The pivot's row labels (line 55): the distinct forecast indices present,
ascending (pandas pivot sorts its index). -/
def pivotRowIds (rows : List OutcomeRow) (hours_before : ℚ × ℚ) (n_games : ℕ)
    (sportsbooks : List String) : List ℕ :=
  List.insertionSort (fun a b : ℕ => a ≤ b)
    (dedupFirst ((dedupedRows rows hours_before n_games sportsbooks).map
      (fIndex (stageKeys rows hours_before n_games sportsbooks))))

/-- The pivot's column labels (line 55): the distinct sportsbook indices
present, ascending. -/
def pivotCols (rows : List OutcomeRow) (hours_before : ℚ × ℚ) (n_games : ℕ)
    (sportsbooks : List String) : List ℕ :=
  List.insertionSort (fun a b : ℕ => a ≤ b)
    (dedupFirst ((dedupedRows rows hours_before n_games sportsbooks).map
      (sbIndex sportsbooks)))

/-- The pivot cell content: the unique surviving row with the given forecast
and book index, when present (NaN otherwise). -/
def pivotCell (rows : List OutcomeRow) (hours_before : ℚ × ℚ) (n_games : ℕ)
    (sportsbooks : List String) (fi si : ℕ) : Option OutcomeRow :=
  (dedupedRows rows hours_before n_games sportsbooks).find? (fun r =>
    (fIndex (stageKeys rows hours_before n_games sportsbooks) r == fi) &&
      (sbIndex sportsbooks r == si))

/-- Line 60: availability matrix `v = 1 - isnan(f)`. -/
def vMatrix (rows : List OutcomeRow) (hours_before : ℚ × ℚ) (n_games : ℕ)
    (sportsbooks : List String) : List (List ℚ) :=
  (pivotRowIds rows hours_before n_games sportsbooks).map (fun fi =>
    (pivotCols rows hours_before n_games sportsbooks).map (fun si =>
      match pivotCell rows hours_before n_games sportsbooks fi si with
      | some _ => 1
      | none => 0))

/-- Lines 55-61: probability matrix with NaN cells replaced by 0
(`np.nan_to_num`). -/
def fMatrix (rows : List OutcomeRow) (hours_before : ℚ × ℚ) (n_games : ℕ)
    (sportsbooks : List String) : List (List ℚ) :=
  (pivotRowIds rows hours_before n_games sportsbooks).map (fun fi =>
    (pivotCols rows hours_before n_games sportsbooks).map (fun si =>
      match pivotCell rows hours_before n_games sportsbooks fi si with
      | some r => r.moneyline_home_prob
      | none => 0))

/-- Line 64: outcome vector — one entry per distinct (forecast_index, outcome)
pair, in first-appearance order. -/
def yVec (rows : List OutcomeRow) (hours_before : ℚ × ℚ) (n_games : ℕ)
    (sportsbooks : List String) : List ℚ :=
  (dedupFirst ((dedupedRows rows hours_before n_games sportsbooks).map (fun r =>
    (fIndex (stageKeys rows hours_before n_games sportsbooks) r,
      r.moneyline_home_outcome)))).map (fun p => p.2)

/-- Line 56: `included_books = np.array(sportsbooks)[f_dataframe.columns]`. -/
def included_books (rows : List OutcomeRow) (hours_before : ℚ × ℚ) (n_games : ℕ)
    (sportsbooks : List String) : List String :=
  (pivotCols rows hours_before n_games sportsbooks).map (fun i => sportsbooks.getD i "")

/-- numpy boolean-mask indexing `a[mask]`. -/
def maskFilter {α : Type} (l : List α) (mask : List Bool) : List α :=
  ((l.zip mask).filter (fun p => p.2)).map Prod.fst

/-- `preprocess_outcome_data` (lines 8-73).  The final mask of lines 66-71
keeps only pivot rows with at least two available books.  `none` models the
numpy IndexError at `y = y[mask]` when y's length differs from the mask's
(possible only when one forecast key carries two different recorded outcomes);
the function itself raises nothing else and returns possibly-empty arrays. -/
def preprocess_outcome_data (rows : List OutcomeRow) (hours_before : ℚ × ℚ)
    (n_games : ℕ) (sportsbooks : List String) :
    Option (List (List ℚ) × List (List ℚ) × List ℚ × List String) :=
  let v := vMatrix rows hours_before n_games sportsbooks
  let f := fMatrix rows hours_before n_games sportsbooks
  let y := yVec rows hours_before n_games sportsbooks
  if y.length = v.length then
    let mask := v.map (fun row => decide (1 < row.sum))
    some (maskFilter v mask, maskFilter f mask, maskFilter y mask,
      included_books rows hours_before n_games sportsbooks)
  else none

lemma floor10_eq_self (x : ℚ) (z : ℤ) (h : x = 10 * z) : floor10 x = x := by
  subst h
  unfold floor10
  rw [mul_div_cancel_left₀ (z : ℚ) (by norm_num : (10:ℚ) ≠ 0), Int.floor_intCast]

lemma floor10_m600 : floor10 (-600) = -600 := floor10_eq_self _ (-60) (by norm_num)

lemma floor10_m610 : floor10 (-610) = -610 := floor10_eq_self _ (-61) (by norm_num)

/-- Single-row dataset: one game, one book, inside the (8, 12) window. -/
def rowsC3 : List OutcomeRow :=
  [⟨0, "H", "W", 0, -600, "A", 3/5, 1⟩]

lemma rowsC3_stage : stageRows rowsC3 (8, 12) 1000 ["A", "B"] = rowsC3 := by
  have h1 : recentRows rowsC3 1000 = rowsC3 := by
    norm_num [recentRows, rowsC3, dedupFirst, gameKey, List.insertionSort,
      List.orderedInsert, List.min?]
  have h2 : windowRows rowsC3 (8, 12) = rowsC3 := by
    norm_num [windowRows, rowsC3, floor10_m600, hoursRemaining]
  rw [stageRows, h1, h2]
  norm_num [bookRows, rowsC3, sortedRows, List.insertionSort, List.orderedInsert]

lemma rowsC3_deduped : dedupedRows rowsC3 (8, 12) 1000 ["A", "B"] = rowsC3 := by
  simp only [dedupedRows, stageKeys, rowsC3_stage]
  norm_num [rowsC3, dedupFirst, fkey, fIndex, sbIndex, List.findIdx, List.findIdx.go,
    List.countP, List.countP.go]

lemma rowsC3_preprocess :
    preprocess_outcome_data rowsC3 (8, 12) 1000 ["A", "B"] =
      some ([], [], [], ["A"]) := by
  rw [preprocess_outcome_data]
  have hids : pivotRowIds rowsC3 (8, 12) 1000 ["A", "B"] = [0] := by
    simp only [pivotRowIds, stageKeys, rowsC3_deduped, rowsC3_stage]
    norm_num [rowsC3, dedupFirst, fkey, fIndex, List.findIdx, List.findIdx.go,
      List.insertionSort, List.orderedInsert]
  have hcols : pivotCols rowsC3 (8, 12) 1000 ["A", "B"] = [0] := by
    simp only [pivotCols, rowsC3_deduped]
    norm_num [rowsC3, sbIndex, dedupFirst, List.findIdx, List.findIdx.go,
      List.insertionSort, List.orderedInsert]
  have hv : vMatrix rowsC3 (8, 12) 1000 ["A", "B"] = [[1]] := by
    simp only [vMatrix, hids, hcols, pivotCell, stageKeys, rowsC3_deduped, rowsC3_stage]
    norm_num [rowsC3, fkey, fIndex, sbIndex, dedupFirst, List.findIdx, List.findIdx.go,
      List.find?]
  have hf : fMatrix rowsC3 (8, 12) 1000 ["A", "B"] = [[3/5]] := by
    simp only [fMatrix, hids, hcols, pivotCell, stageKeys, rowsC3_deduped, rowsC3_stage]
    norm_num [rowsC3, fkey, fIndex, sbIndex, dedupFirst, List.findIdx, List.findIdx.go,
      List.find?]
  have hy : yVec rowsC3 (8, 12) 1000 ["A", "B"] = [1] := by
    simp only [yVec, stageKeys, rowsC3_deduped, rowsC3_stage]
    norm_num [rowsC3, dedupFirst, fkey, fIndex, List.findIdx, List.findIdx.go]
  have hbooks : included_books rowsC3 (8, 12) 1000 ["A", "B"] = ["A"] := by
    simp only [included_books, hcols]
    norm_num
  rw [hv, hy, hf]
  norm_num [maskFilter, hbooks]

/-- **C3, counterexample**: a dataset whose only pivot row has a single
available book, so the final information filter removes every row; the code
returns empty arrays (and still reports book A as included, since the column
set is computed before the mask) instead of raising any error — the repository
defines no `InsufficientDataError`. -/
theorem C3_counterexample :
    preprocess_outcome_data rowsC3 (8, 12) 1000 ["A", "B"] =
      some ([], [], [], ["A"]) :=
  rowsC3_preprocess

lemma strAB : (("A" : String) = "B") = False := eq_false (by decide)

lemma strBA : (("B" : String) = "A") = False := eq_false (by decide)

lemma strbAB : ((("A" : String)) == "B") = false := by decide

lemma strbBA : ((("B" : String)) == "A") = false := by decide

lemma keybC8a : ((((-600:ℚ)), ((0:ℤ)), "H", "W") == (((-610:ℚ)), ((0:ℤ)), "H", "W")) = false := by
  decide

lemma keybC8b : ((((-610:ℚ)), ((0:ℤ)), "H", "W") == (((-600:ℚ)), ((0:ℤ)), "H", "W")) = false := by
  decide

/-- One game, books A and B each quoting at two distinct 10-minute observation
times inside the same (8, 12]-hour bucket; A's two quotes differ (0.6, 0.55). -/
def rowsC8 : List OutcomeRow :=
  [⟨0, "H", "W", 0, -600, "A", 3/5, 1⟩,
   ⟨0, "H", "W", 0, -610, "A", 11/20, 1⟩,
   ⟨0, "H", "W", 0, -600, "B", 7/10, 1⟩,
   ⟨0, "H", "W", 0, -610, "B", 3/4, 1⟩]

lemma rowsC8_stage : stageRows rowsC8 (8, 12) 1000 ["A", "B"] = rowsC8 := by
  have h1 : recentRows rowsC8 1000 = rowsC8 := by
    norm_num [recentRows, rowsC8, dedupFirst, gameKey, List.insertionSort,
      List.orderedInsert, List.min?]
  have h2 : windowRows rowsC8 (8, 12) = rowsC8 := by
    norm_num [windowRows, rowsC8, floor10_m600, floor10_m610, hoursRemaining]
  rw [stageRows, h1, h2]
  norm_num [bookRows, rowsC8, sortedRows, List.insertionSort, List.orderedInsert,
    rowLE, sbIndex, List.findIdx, List.findIdx.go]

lemma rowsC8_keys :
    stageKeys rowsC8 (8, 12) 1000 ["A", "B"] =
      [(-600, 0, "H", "W"), (-610, 0, "H", "W")] := by
  simp only [stageKeys, rowsC8_stage]
  norm_num [rowsC8, fkey, dedupFirst, Prod.mk.injEq]

lemma rowsC8_deduped : dedupedRows rowsC8 (8, 12) 1000 ["A", "B"] = rowsC8 := by
  simp only [dedupedRows, rowsC8_stage, rowsC8_keys]
  simp [rowsC8, fkey, fIndex, sbIndex, List.findIdx, List.findIdx.go,
    List.countP, List.countP.go, Prod.ext_iff, keybC8a, keybC8b]

set_option maxHeartbeats 1000000 in
lemma rowsC8_preprocess :
    preprocess_outcome_data rowsC8 (8, 12) 1000 ["A", "B"] =
      some ([[1, 1], [1, 1]], [[3/5, 7/10], [11/20, 3/4]], [1, 1], ["A", "B"]) := by
  rw [preprocess_outcome_data]
  have hids : pivotRowIds rowsC8 (8, 12) 1000 ["A", "B"] = [0, 1] := by
    simp only [pivotRowIds, rowsC8_deduped, rowsC8_keys]
    simp [rowsC8, fkey, fIndex, List.findIdx, List.findIdx.go, dedupFirst,
      List.insertionSort, List.orderedInsert, Prod.ext_iff, keybC8a, keybC8b]
  have hcols : pivotCols rowsC8 (8, 12) 1000 ["A", "B"] = [0, 1] := by
    simp only [pivotCols, rowsC8_deduped]
    simp [rowsC8, sbIndex, dedupFirst, List.findIdx, List.findIdx.go,
      List.insertionSort, List.orderedInsert]
  have hcell : ∀ fi si, pivotCell rowsC8 (8, 12) 1000 ["A", "B"] fi si =
      (dedupedRows rowsC8 (8, 12) 1000 ["A", "B"]).find? (fun r =>
        (fIndex (stageKeys rowsC8 (8, 12) 1000 ["A", "B"]) r == fi) &&
          (sbIndex ["A", "B"] r == si)) := fun fi si => rfl
  have hv : vMatrix rowsC8 (8, 12) 1000 ["A", "B"] = [[1, 1], [1, 1]] := by
    simp only [vMatrix, hids, hcols, pivotCell, rowsC8_deduped, rowsC8_keys]
    simp [rowsC8, fkey, fIndex, sbIndex, List.findIdx, List.findIdx.go, List.find?,
      Prod.ext_iff, keybC8a, keybC8b]
  have hf : fMatrix rowsC8 (8, 12) 1000 ["A", "B"] =
      [[3/5, 7/10], [11/20, 3/4]] := by
    simp only [fMatrix, hids, hcols, pivotCell, rowsC8_deduped, rowsC8_keys]
    simp [rowsC8, fkey, fIndex, sbIndex, List.findIdx, List.findIdx.go, List.find?,
      Prod.ext_iff, keybC8a, keybC8b]
  have hy : yVec rowsC8 (8, 12) 1000 ["A", "B"] = [1, 1] := by
    simp only [yVec, rowsC8_deduped, rowsC8_keys]
    simp [rowsC8, fkey, fIndex, List.findIdx, List.findIdx.go, dedupFirst, Prod.ext_iff, keybC8a, keybC8b]
  have hbooks : included_books rowsC8 (8, 12) 1000 ["A", "B"] = ["A", "B"] := by
    simp only [included_books, hcols]
    norm_num
  rw [hv, hy, hf]
  norm_num [maskFilter, hbooks]

/-- **C8, counterexample**: book A reports two different probabilities (0.6
and 0.55) for the same game inside the same lead-time bucket, yet both of A's
observations survive into the training output (both rows show A available and
both of A's probabilities appear in the probability matrix).  The code's
duplicate-drop key (line 52) is (observation-time forecast, book), not
(game, book), so same-bucket duplicates at different 10-minute timestamps are
kept, refuting "every observation for that pair is dropped". -/
theorem C8_counterexample :
    rowsC8.countP (fun r => r.sportsbook_name == "A") = 2 ∧
    preprocess_outcome_data rowsC8 (8, 12) 1000 ["A", "B"] =
      some ([[1, 1], [1, 1]], [[3/5, 7/10], [11/20, 3/4]], [1, 1], ["A", "B"]) :=
  ⟨by simp [rowsC8, List.countP, List.countP.go], rowsC8_preprocess⟩

lemma mem_dedupFirst {α : Type} [DecidableEq α] (l : List α) (x : α) :
    x ∈ dedupFirst l ↔ x ∈ l := by
  induction l with
  | nil => simp [dedupFirst]
  | cons a as ih =>
    simp only [dedupFirst, List.mem_cons, List.mem_filter, ih, decide_eq_true_eq]
    constructor
    · rintro (rfl | ⟨h, _⟩)
      · exact Or.inl rfl
      · exact Or.inr h
    · rintro (rfl | h)
      · exact Or.inl rfl
      · by_cases hx : x = a
        · exact Or.inl hx
        · exact Or.inr ⟨h, by simpa using hx⟩

lemma dedupFirst_nodup {α : Type} [DecidableEq α] (l : List α) :
    (dedupFirst l).Nodup := by
  induction l with
  | nil => simp [dedupFirst]
  | cons a as ih =>
    simp only [dedupFirst, List.nodup_cons]
    refine ⟨fun hmem => ?_, ih.filter _⟩
    have := (List.mem_filter.mp hmem).2
    simp at this

/-- **C8, amended**: the duplicate-drop of line 52 keys on the
(forecast_index, sportsbook_index) pair, where a forecast is one
(10-minute observation timestamp, game) combination: a stage row survives
exactly when no other stage row shares its timestamped forecast and book.
Duplicates of a (game, book) pair at different observation timestamps are
distinct keys and therefore kept (see the counterexample). -/
theorem C8_dedup_key_is_timestamped_forecast_and_book
    (rows : List OutcomeRow) (hb : ℚ × ℚ) (ng : ℕ) (books : List String)
    (r : OutcomeRow) :
    r ∈ dedupedRows rows hb ng books ↔
      r ∈ stageRows rows hb ng books ∧
        ((stageRows rows hb ng books).map (fun r2 =>
            (fIndex (stageKeys rows hb ng books) r2, sbIndex books r2))).count
          (fIndex (stageKeys rows hb ng books) r, sbIndex books r) = 1 := by
  have hcount : ((stageRows rows hb ng books).map (fun r2 =>
        (fIndex (stageKeys rows hb ng books) r2, sbIndex books r2))).count
        (fIndex (stageKeys rows hb ng books) r, sbIndex books r) =
      (stageRows rows hb ng books).countP (fun r2 =>
        (fIndex (stageKeys rows hb ng books) r2 == fIndex (stageKeys rows hb ng books) r) &&
          (sbIndex books r2 == sbIndex books r)) := by
    rw [List.count, List.countP_map]
    rfl
  rw [hcount]
  simp only [dedupedRows, List.mem_filter, beq_iff_eq]

lemma dedupFirst_map_injOn {α β : Type} [DecidableEq α] [DecidableEq β] (f : α → β)
    (l : List α) (hf : ∀ x ∈ l, ∀ y ∈ l, f x = f y → x = y) :
    dedupFirst (l.map f) = (dedupFirst l).map f := by
  induction l with
  | nil => simp [dedupFirst]
  | cons a as ih =>
    simp only [List.map_cons, dedupFirst]
    have hsub : ∀ x ∈ as, ∀ y ∈ as, f x = f y → x = y := fun x hx y hy =>
      hf x (List.mem_cons_of_mem a hx) y (List.mem_cons_of_mem a hy)
    rw [ih hsub, List.filter_map]
    refine congrArg (fun l => f a :: List.map f l) (List.filter_congr ?_)
    intro x hx
    have hxl : x ∈ as := (mem_dedupFirst as x).mp hx
    simp only [Function.comp]
    by_cases h : x = a
    · subst h
      simp
    · have hfx : f x ≠ f a := fun hfe =>
        h (hf x (List.mem_cons_of_mem a hxl) a (List.mem_cons_self a as) hfe)
      simp [h, hfx]

/-- Under outcome-consistency (no forecast key carries two different recorded
outcomes among the surviving rows), the outcome vector has exactly one entry
per pivot row. -/
lemma yVec_length_eq (rows : List OutcomeRow) (hb : ℚ × ℚ) (ng : ℕ)
    (books : List String)
    (hcons : ∀ r ∈ dedupedRows rows hb ng books, ∀ r2 ∈ dedupedRows rows hb ng books,
      fIndex (stageKeys rows hb ng books) r = fIndex (stageKeys rows hb ng books) r2 →
        r.moneyline_home_outcome = r2.moneyline_home_outcome) :
    (yVec rows hb ng books).length = (vMatrix rows hb ng books).length := by
  set keys := stageKeys rows hb ng books with hkeys
  set dd := dedupedRows rows hb ng books with hdd
  have hinj : ∀ p ∈ dd.map (fun r => (fIndex keys r, r.moneyline_home_outcome)),
      ∀ q ∈ dd.map (fun r => (fIndex keys r, r.moneyline_home_outcome)),
      Prod.fst p = Prod.fst q → p = q := by
    intro p hp q hq hfst
    obtain ⟨r, hr, rfl⟩ := List.mem_map.mp hp
    obtain ⟨r2, hr2, rfl⟩ := List.mem_map.mp hq
    simp only at hfst
    exact Prod.ext hfst (hcons r hr r2 hr2 hfst)
  have hmapfst : (dd.map (fun r => (fIndex keys r, r.moneyline_home_outcome))).map Prod.fst =
      dd.map (fIndex keys) := by
    rw [List.map_map]
    rfl
  have hkey : dedupFirst (dd.map (fIndex keys)) =
      (dedupFirst (dd.map (fun r => (fIndex keys r, r.moneyline_home_outcome)))).map Prod.fst := by
    rw [← hmapfst]
    exact dedupFirst_map_injOn Prod.fst _ hinj
  simp only [yVec, vMatrix, pivotRowIds, List.length_map, ← hkeys, ← hdd,
    List.length_insertionSort, hkey]

/-- **C3, amended**: `preprocess_outcome_data` raises nothing when the filters
leave zero rows — the repository defines no `InsufficientDataError` and the
function has no raise statement.  Whenever no surviving forecast key carries
two conflicting recorded outcomes (the only situation in which the final numpy
mask indexing can fail), it returns a well-formed (possibly empty) tuple of
arrays. -/
theorem C3_no_error_on_empty_result (rows : List OutcomeRow) (hb : ℚ × ℚ)
    (ng : ℕ) (books : List String)
    (hcons : ∀ r ∈ dedupedRows rows hb ng books, ∀ r2 ∈ dedupedRows rows hb ng books,
      fIndex (stageKeys rows hb ng books) r = fIndex (stageKeys rows hb ng books) r2 →
        r.moneyline_home_outcome = r2.moneyline_home_outcome) :
    ∃ v f y b, preprocess_outcome_data rows hb ng books = some (v, f, y, b) := by
  have hlen := yVec_length_eq rows hb ng books hcons
  simp only [preprocess_outcome_data]
  rw [if_pos hlen]
  exact ⟨_, _, _, _, rfl⟩

/-- Witness for C3: an empty dataset filters down to nothing, and the function
still returns a tuple rather than failing. -/
theorem C3_witness : ∃ v f y b,
    preprocess_outcome_data [] (8, 12) 1000 ["A"] = some (v, f, y, b) :=
  C3_no_error_on_empty_result [] (8, 12) 1000 ["A"] (by
    intro r hr
    simp [dedupedRows, stageRows, sortedRows, bookRows, windowRows, recentRows,
      dedupFirst, List.insertionSort, List.min?] at hr)

lemma zip_map_self {α β : Type} (l : List α) (g : α → β) :
    l.zip (l.map g) = l.map (fun a => (a, g a)) := by
  induction l with
  | nil => rfl
  | cons a as ih => simp [ih]

lemma maskFilter_map_self {α : Type} (l : List α) (g : α → Bool) :
    maskFilter l (l.map g) = l.filter g := by
  simp only [maskFilter, zip_map_self, List.filter_map, List.map_map]
  have h1 : (Prod.fst ∘ fun a => (a, g a)) = id := rfl
  rw [h1, List.map_id]
  rfl

lemma maskFilter_cons {α : Type} (a : α) (l : List α) (b : Bool) (m : List Bool) :
    maskFilter (a :: l) (b :: m) =
      if b then a :: maskFilter l m else maskFilter l m := by
  simp only [maskFilter, List.zip_cons_cons, List.filter]
  cases b <;> simp [List.zip]

lemma maskFilter_length_congr {α β : Type} (l : List α) (l2 : List β)
    (m : List Bool) (h : l.length = l2.length) :
    (maskFilter l m).length = (maskFilter l2 m).length := by
  induction l generalizing l2 m with
  | nil =>
    cases l2 with
    | nil => rfl
    | cons b bs => simp at h
  | cons a as ih =>
    cases l2 with
    | nil => simp at h
    | cons b bs =>
      cases m with
      | nil => rfl
      | cons c ms =>
        rw [maskFilter_cons, maskFilter_cons]
        have h' : as.length = bs.length := by simpa using h
        cases c
        · simpa using ih bs ms h'
        · simpa using ih bs ms h'

lemma sum_eq_count_one (l : List ℚ) (h : ∀ x ∈ l, x = 0 ∨ x = 1) :
    l.sum = (l.count 1 : ℕ) := by
  induction l with
  | nil => simp
  | cons a as ih =>
    have ih' := ih (fun x hx => h x (List.mem_cons_of_mem a hx))
    rcases h a (List.mem_cons_self a as) with rfl | rfl
    · rw [List.sum_cons, List.count_cons]
      norm_num [ih']
    · rw [List.sum_cons, List.count_cons]
      push_cast
      norm_num [ih', add_comm]

lemma vMatrix_entries (rows : List OutcomeRow) (hb : ℚ × ℚ) (ng : ℕ)
    (books : List String) :
    ∀ row ∈ vMatrix rows hb ng books, ∀ x ∈ row, x = 0 ∨ x = 1 := by
  intro row hrow x hx
  simp only [vMatrix, List.mem_map] at hrow
  obtain ⟨fi, _, rfl⟩ := hrow
  simp only [List.mem_map] at hx
  obtain ⟨si, _, rfl⟩ := hx
  cases pivotCell rows hb ng books fi si <;> simp

/-- **C9**: every availability row that survives into the output has at least
two books marked available (the final mask keeps only rows with row-sum > 1,
and availability entries are 0/1), and the three returned arrays are filtered
in lockstep, so a row excluded from one is excluded from all. -/
theorem C9_rows_have_at_least_two_books (rows : List OutcomeRow) (hb : ℚ × ℚ)
    (ng : ℕ) (books : List String) (v f : List (List ℚ)) (y : List ℚ)
    (b : List String)
    (h : preprocess_outcome_data rows hb ng books = some (v, f, y, b)) :
    (∀ row ∈ v, 2 ≤ row.count 1) ∧ f.length = v.length ∧ y.length = v.length := by
  simp only [preprocess_outcome_data] at h
  split at h
  case isFalse => exact Option.noConfusion h
  case isTrue hlen =>
  rw [Option.some.injEq] at h
  have hv : v = maskFilter (vMatrix rows hb ng books) ((vMatrix rows hb ng books).map
      (fun row => decide (1 < row.sum))) := congrArg Prod.fst h.symm
  have hf2 : f = maskFilter (fMatrix rows hb ng books) ((vMatrix rows hb ng books).map
      (fun row => decide (1 < row.sum))) := congrArg (fun p => p.2.1) h.symm
  have hy2 : y = maskFilter (yVec rows hb ng books) ((vMatrix rows hb ng books).map
      (fun row => decide (1 < row.sum))) := congrArg (fun p => p.2.2.1) h.symm
  refine ⟨?_, ?_, ?_⟩
  · intro row hrow
    rw [hv, maskFilter_map_self] at hrow
    obtain ⟨hmem, hsum⟩ := List.mem_filter.mp hrow
    have hsum' : (1:ℚ) < row.sum := of_decide_eq_true hsum
    have hent := vMatrix_entries rows hb ng books row hmem
    rw [sum_eq_count_one row hent] at hsum'
    exact_mod_cast hsum'
  · rw [hv, hf2]
    exact maskFilter_length_congr _ _ _ (by simp [vMatrix, fMatrix])
  · rw [hv, hy2]
    exact maskFilter_length_congr _ _ _ hlen

/-- Witness for C9 at the concrete two-game, two-book dataset: both surviving
availability rows have two 1-entries and the arrays share their length. -/
theorem C9_witness :
    (∀ row ∈ [[(1:ℚ), 1], [1, 1]], 2 ≤ row.count 1) ∧
      ([[(3:ℚ)/5, 7/10], [11/20, 3/4]]).length = ([[(1:ℚ), 1], [1, 1]]).length ∧
      ([(1:ℚ), 1]).length = ([[(1:ℚ), 1], [1, 1]]).length :=
  C9_rows_have_at_least_two_books rowsC8 (8, 12) 1000 ["A", "B"]
    [[1, 1], [1, 1]] [[3/5, 7/10], [11/20, 3/4]] [1, 1] ["A", "B"]
    rowsC8_preprocess

lemma maskFilter_subset {α : Type} (l : List α) (m : List Bool) :
    ∀ x ∈ maskFilter l m, x ∈ l := by
  intro x hx
  rw [maskFilter] at hx
  obtain ⟨⟨a, bb⟩, hpair, rfl⟩ := List.mem_map.mp hx
  exact (List.of_mem_zip (List.mem_filter.mp hpair).1).1

lemma findIdx_beq_getD_of_nodup {α : Type} [BEq α] [LawfulBEq α] (l : List α)
    (hnd : l.Nodup) (i : ℕ) (hi : i < l.length) (d : α) :
    l.findIdx (fun s => s == l.getD i d) = i := by
  induction l generalizing i with
  | nil => simp at hi
  | cons a as ih =>
    cases i with
    | zero =>
      have h0 : (a :: as).getD 0 d = a := rfl
      rw [h0, List.findIdx_cons]
      simp
    | succ n =>
      have hn : n < as.length := by simpa using hi
      have hgd : (a :: as).getD (n + 1) d = as.getD n d := rfl
      rw [hgd, List.findIdx_cons]
      have hmem : as.getD n d ∈ as := getD_mem_of_lt hn
      have hne : (a == as.getD n d) = false := by
        rw [beq_eq_false_iff_ne]
        intro hEq
        exact (List.nodup_cons.mp hnd).1 (hEq ▸ hmem)
      rw [hne]
      have hih := ih (List.nodup_cons.mp hnd).2 n hn
      simp only [Bool.cond_false]
      rw [hih]

lemma stage_name_mem (rows : List OutcomeRow) (hb : ℚ × ℚ) (ng : ℕ)
    (books : List String) : ∀ r ∈ stageRows rows hb ng books,
      r.sportsbook_name ∈ books := by
  intro r hr
  rw [stageRows, sortedRows, (List.perm_insertionSort _ _).mem_iff, bookRows,
    List.mem_filter] at hr
  simpa using hr.2

lemma deduped_sub (rows : List OutcomeRow) (hb : ℚ × ℚ) (ng : ℕ)
    (books : List String) : ∀ r ∈ dedupedRows rows hb ng books,
      r ∈ stageRows rows hb ng books := by
  intro r hr
  simp only [dedupedRows] at hr
  exact (List.mem_filter.mp hr).1

lemma deduped_sbIndex_lt (rows : List OutcomeRow) (hb : ℚ × ℚ) (ng : ℕ)
    (books : List String) : ∀ r ∈ dedupedRows rows hb ng books,
      sbIndex books r < books.length := by
  intro r hr
  have hmem := stage_name_mem rows hb ng books r (deduped_sub rows hb ng books r hr)
  exact List.findIdx_lt_length_of_exists ⟨r.sportsbook_name, hmem, by simp⟩

lemma deduped_getD_sbIndex (rows : List OutcomeRow) (hb : ℚ × ℚ) (ng : ℕ)
    (books : List String) : ∀ r ∈ dedupedRows rows hb ng books,
      books.getD (sbIndex books r) "" = r.sportsbook_name := by
  intro r hr
  have hlt : books.findIdx (fun s => s == r.sportsbook_name) < books.length :=
    deduped_sbIndex_lt rows hb ng books r hr
  have h2 : ((books.get ⟨books.findIdx (fun s => s == r.sportsbook_name), hlt⟩) ==
      r.sportsbook_name) = true := @List.findIdx_get _ (fun s => s == r.sportsbook_name) books hlt
  rw [sbIndex, List.getD_eq_get books "" hlt]
  exact eq_of_beq h2

lemma pivotCols_eq_range_filter (rows : List OutcomeRow) (hb : ℚ × ℚ) (ng : ℕ)
    (books : List String) (hnd : books.Nodup) :
    pivotCols rows hb ng books = (List.range books.length).filter
      (fun i => (dedupedRows rows hb ng books).any (fun r => sbIndex books r == i)) := by
  have h1 : (pivotCols rows hb ng books).Sorted (fun a b : ℕ => a ≤ b) := by
    rw [pivotCols]
    exact List.sorted_insertionSort _ _
  have h2 : (((List.range books.length).filter (fun i => (dedupedRows rows hb ng books).any
      (fun r => sbIndex books r == i)))).Sorted (fun a b : ℕ => a ≤ b) :=
    ((List.sorted_lt_range _).filter _).imp le_of_lt
  have hperm : List.Perm (pivotCols rows hb ng books)
      ((List.range books.length).filter (fun i => (dedupedRows rows hb ng books).any
        (fun r => sbIndex books r == i))) := by
    refine (List.perm_ext_iff_of_nodup ?_ ?_).mpr ?_
    · rw [pivotCols]
      exact (List.perm_insertionSort _ _).nodup_iff.mpr (dedupFirst_nodup _)
    · exact (List.nodup_range _).filter _
    · intro i
      rw [pivotCols, (List.perm_insertionSort _ _).mem_iff, mem_dedupFirst,
        List.mem_map, List.mem_filter, List.mem_range, List.any_eq_true]
      constructor
      · rintro ⟨r, hr, rfl⟩
        exact ⟨deduped_sbIndex_lt rows hb ng books r hr, ⟨r, hr, by simp⟩⟩
      · rintro ⟨_, r, hr, hbeq⟩
        exact ⟨r, hr, by simpa using hbeq⟩
  exact List.eq_of_perm_of_sorted hperm h1 h2

lemma map_getD_range_filter {α : Type} (l : List α) (p : α → Bool) (d : α) :
    ((List.range l.length).filter (fun i => p (l.getD i d))).map (fun i => l.getD i d) =
      l.filter p := by
  induction l with
  | nil => simp
  | cons a as ih =>
    rw [List.length_cons, List.range_succ_eq_map]
    have hq : (List.map Nat.succ (List.range as.length)).filter
        (fun i => p ((a :: as).getD i d)) =
        List.map Nat.succ ((List.range as.length).filter (fun i => p (as.getD i d))) := by
      rw [List.filter_map]
      refine congrArg (List.map Nat.succ) (List.filter_congr ?_)
      intro i _
      rfl
    have hcomp : ((fun i => (a :: as).getD i d) ∘ Nat.succ) = fun i => as.getD i d := rfl
    cases hpa : p a
    · rw [List.filter_cons_of_neg, hq, List.map_map, hcomp, ih,
        List.filter_cons_of_neg]
      · simp [hpa]
      · simp [hpa]
    · rw [List.filter_cons_of_pos, List.map_cons, hq, List.map_map, hcomp, ih,
        List.filter_cons_of_pos]
      · rfl
      · simp [hpa]
      · simp [hpa]

lemma included_books_eq_filter (rows : List OutcomeRow) (hb : ℚ × ℚ) (ng : ℕ)
    (books : List String) (hnd : books.Nodup) :
    included_books rows hb ng books = books.filter (fun name =>
      (dedupedRows rows hb ng books).any (fun r => r.sportsbook_name == name)) := by
  rw [included_books, pivotCols_eq_range_filter rows hb ng books hnd]
  have hpred : ∀ i ∈ List.range books.length,
      ((dedupedRows rows hb ng books).any (fun r => sbIndex books r == i)) =
      ((dedupedRows rows hb ng books).any
        (fun r => r.sportsbook_name == books.getD i "")) := by
    intro i hi
    rw [List.mem_range] at hi
    rw [Bool.eq_iff_iff, List.any_eq_true, List.any_eq_true]
    constructor
    · rintro ⟨r, hr, hbeq⟩
      refine ⟨r, hr, ?_⟩
      have hsb : sbIndex books r = i := by simpa using hbeq
      rw [← hsb, deduped_getD_sbIndex rows hb ng books r hr]
      simp
    · rintro ⟨r, hr, hbeq⟩
      refine ⟨r, hr, ?_⟩
      have hname : r.sportsbook_name = books.getD i "" := by simpa using hbeq
      have hsb : sbIndex books r = i := by
        rw [sbIndex, hname]
        exact findIdx_beq_getD_of_nodup books hnd i hi ""
      simp [hsb]
  rw [List.filter_congr hpred]
  exact map_getD_range_filter books (fun name =>
    (dedupedRows rows hb ng books).any (fun r => r.sportsbook_name == name)) ""

/-- **C10**: the returned forecaster-name list is the sub-list of the allowed
sportsbooks consisting of exactly those with a surviving observation, in
allow-list order, and every availability and probability row has exactly that
many columns (possibly strictly fewer than the allow-list's length).  Stated
for duplicate-free allow-lists, matching the code's use of
`sportsbooks.index`. -/
theorem C10_included_books_subsequence (rows : List OutcomeRow) (hb : ℚ × ℚ)
    (ng : ℕ) (books : List String) (v f : List (List ℚ)) (y : List ℚ)
    (b : List String) (hnd : books.Nodup)
    (h : preprocess_outcome_data rows hb ng books = some (v, f, y, b)) :
    b = books.filter (fun name =>
        (dedupedRows rows hb ng books).any (fun r => r.sportsbook_name == name)) ∧
      b.Sublist books ∧
      (∀ row ∈ v, row.length = b.length) ∧
      (∀ row ∈ f, row.length = b.length) := by
  simp only [preprocess_outcome_data] at h
  split at h
  case isFalse => exact Option.noConfusion h
  case isTrue hlen =>
  rw [Option.some.injEq] at h
  have hv : v = maskFilter (vMatrix rows hb ng books) ((vMatrix rows hb ng books).map
      (fun row => decide (1 < row.sum))) := congrArg Prod.fst h.symm
  have hf2 : f = maskFilter (fMatrix rows hb ng books) ((vMatrix rows hb ng books).map
      (fun row => decide (1 < row.sum))) := congrArg (fun p => p.2.1) h.symm
  have hb2 : b = included_books rows hb ng books := congrArg (fun p => p.2.2.2) h.symm
  have hkey : b = books.filter (fun name =>
      (dedupedRows rows hb ng books).any (fun r => r.sportsbook_name == name)) := by
    rw [hb2, included_books_eq_filter rows hb ng books hnd]
  have hblen : b.length = (pivotCols rows hb ng books).length := by
    rw [hb2, included_books, List.length_map]
  refine ⟨hkey, ?_, ?_, ?_⟩
  · rw [hkey]
    exact List.filter_sublist books
  · intro row hrow
    rw [hv] at hrow
    have hmem := maskFilter_subset _ _ row hrow
    rw [vMatrix] at hmem
    obtain ⟨fi, _, rfl⟩ := List.mem_map.mp hmem
    rw [List.length_map, hblen]
  · intro row hrow
    rw [hf2] at hrow
    have hmem := maskFilter_subset _ _ row hrow
    rw [fMatrix] at hmem
    obtain ⟨fi, _, rfl⟩ := List.mem_map.mp hmem
    rw [List.length_map, hblen]

/-- Witness for C10: with allow-list [A, B] and data containing only book A,
the returned name list is the strict sub-list [A]. -/
theorem C10_witness :
    (["A"] = (["A", "B"] : List String).filter (fun name =>
        (dedupedRows rowsC3 (8, 12) 1000 ["A", "B"]).any
          (fun r => r.sportsbook_name == name)) ∧
      (["A"] : List String).Sublist ["A", "B"] ∧
      (∀ row ∈ ([] : List (List ℚ)), row.length = (["A"] : List String).length) ∧
      (∀ row ∈ ([] : List (List ℚ)), row.length = (["A"] : List String).length)) :=
  C10_included_books_subsequence rowsC3 (8, 12) 1000 ["A", "B"] [] [] [] ["A"]
    (by decide) rowsC3_preprocess
